import Mathlib

/-!
Verification of the SpacetimeDB core against its specification.

The development shallowly embeds the Rust sources:
* `crates/sats/src/product_type_element.rs` — `ProductTypeElement` and the
  structural value model (`AlgebraicType`, `AlgebraicValue`).
* `crates/bindings/src/lib.rs` — the guest-side bindings (`encode_row`,
  `decode_row`, `encode_schema`, `decode_schema`, `insert`, `delete_eq`,
  `delete_by_field`, `update_by_field`, `buffer_table_iter`, `RawTableIter`).
* `crates/core/src/db/datastore/traits.rs` — the catalog types
  (`ColumnSchema`, `TableSchema`, `TableDef`, …) and their conversions.
* `crates/core/src/sql/execute.rs` — `collect_result`.
* `crates/lib/src/table.rs` — `ProductTypeMeta`.

Machine integers are modelled as `Nat` with explicit bounds (`< 2 ^ w`);
strings are represented by their UTF-8 byte sequences (`List Nat`, each
entry `< 256`); byte buffers are `List Nat`.  The BSATN codec itself lives
in the `sats` crate, which is not among the given sources, so its encoder
and decoder are modelled from the specification (§4.2) and marked as such.
-/

namespace SpacetimeDB

/-- Integer widths of the BSATN value universe: 8, 16, 32, 64 and 128 bits. -/
inductive IntWidth
  | w8
  | w16
  | w32
  | w64
  | w128
deriving DecidableEq

/-- Number of bytes of a width-exact integer. -/
def IntWidth.byteCount : IntWidth → Nat
  | .w8 => 1
  | .w16 => 2
  | .w32 => 4
  | .w64 => 8
  | .w128 => 16

mutual
/-- The universe of types (spec §3): primitives, products, sums, arrays.
`Map` and `Ref` are not exercised by any claim and are omitted.  Signed
integers carry their two's-complement bit pattern, and floats their IEEE-754
bit pattern, as a bounded `Nat`; the codec moves bit patterns verbatim. -/
inductive AlgebraicType where
  | bool : AlgebraicType
  | uint (w : IntWidth) : AlgebraicType
  | int (w : IntWidth) : AlgebraicType
  | f32 : AlgebraicType
  | f64 : AlgebraicType
  | str : AlgebraicType
  | bytes : AlgebraicType
  | array (t : AlgebraicType) : AlgebraicType
  | product (elems : List ProductTypeElement) : AlgebraicType
  | sum (variants : List ProductTypeElement) : AlgebraicType

/-- A factor / element of a product type, from
`crates/sats/src/product_type_element.rs`: an optional name and a type.
The name participates in structural equality. -/
inductive ProductTypeElement where
  | mk (name : Option (List Nat)) (algebraic_type : AlgebraicType) : ProductTypeElement
end

/-- Field accessor mirroring `ProductTypeElement::name`. -/
def ProductTypeElement.name : ProductTypeElement → Option (List Nat)
  | .mk n _ => n

/-- Field accessor mirroring `ProductTypeElement::algebraic_type`. -/
def ProductTypeElement.algebraic_type : ProductTypeElement → AlgebraicType
  | .mk _ t => t

/-- Constructor mirroring `ProductTypeElement::new(algebraic_type, name)`. -/
def ProductTypeElement.new (algebraic_type : AlgebraicType) (name : Option (List Nat)) :
    ProductTypeElement :=
  .mk name algebraic_type

/-- An ordered sequence of `ProductTypeElement`s (the sats `ProductType`). -/
structure ProductType where
  elements : List ProductTypeElement

/-- Typed values mirroring `AlgebraicValue`: one constructor per type former.
Integer and float payloads are bit patterns as bounded `Nat`s. -/
inductive AlgebraicValue where
  | vbool (b : Bool)
  | vuint (w : IntWidth) (n : Nat)
  | vint (w : IntWidth) (n : Nat)
  | vf32 (n : Nat)
  | vf64 (n : Nat)
  | vstr (s : List Nat)
  | vbytes (s : List Nat)
  | varray (vs : List AlgebraicValue)
  | vproduct (vs : List AlgebraicValue)
  | vsum (tag : Nat) (v : AlgebraicValue)

/-- The matching ordered sequence of `AlgebraicValue`s (the sats `ProductValue`). -/
structure ProductValue where
  elements : List AlgebraicValue

/-- Little-endian byte representation of `n` in exactly `k` bytes. -/
def natToLE : Nat → Nat → List Nat
  | 0, _ => []
  | k + 1, n => n % 256 :: natToLE k (n / 256)

/-- Read `k` little-endian bytes off the front of a buffer; fails on a short
buffer (spec §4.1: `DecodeError` on short buffer). -/
def readLE : Nat → List Nat → Option (Nat × List Nat)
  | 0, bs => some (0, bs)
  | _ + 1, [] => none
  | k + 1, b :: bs => (readLE k bs).map (fun p => (b + 256 * p.1, p.2))

/-- Split exactly `k` bytes off the front of a buffer; fails on a short buffer. -/
def takeExact : Nat → List Nat → Option (List Nat × List Nat)
  | 0, bs => some ([], bs)
  | _ + 1, [] => none
  | k + 1, b :: bs => (takeExact k bs).map (fun p => (b :: p.1, p.2))

mutual
/-- Modelled from the spec: the BSATN value encoder (§4.2), whose Rust
implementation (`AlgebraicValue::encode` in the sats crate) is not among the
given sources.  Integers/floats are width-exact little-endian; bool is one
byte `0`/`1`; string/bytes/array carry a `u32` length prefix; product
elements are concatenated in declared order with no tag; a sum is a `u8`
variant tag followed by the payload. -/
def encodeVal : AlgebraicValue → List Nat
  | .vbool b => [if b then 1 else 0]
  | .vuint w n => natToLE w.byteCount n
  | .vint w n => natToLE w.byteCount n
  | .vf32 n => natToLE 4 n
  | .vf64 n => natToLE 8 n
  | .vstr s => natToLE 4 s.length ++ s
  | .vbytes s => natToLE 4 s.length ++ s
  | .varray vs => natToLE 4 vs.length ++ encodeList vs
  | .vproduct vs => encodeList vs
  | .vsum tag v => tag :: encodeVal v

/-- Concatenation of the encodings of a list of values. -/
def encodeList : List AlgebraicValue → List Nat
  | [] => []
  | v :: vs => encodeVal v ++ encodeList vs
end

mutual
/-- Well-formedness of a typed value: the value matches the type and every
machine quantity fits its width (string/array lengths fit in the `u32`
prefix, sum tags fit in the `u8` tag byte, integer payloads fit their
width). -/
def typeCheck : AlgebraicType → AlgebraicValue → Bool
  | .bool, .vbool _ => true
  | .uint w, .vuint w' n => decide (w' = w) && decide (n < 2 ^ (8 * w.byteCount))
  | .int w, .vint w' n => decide (w' = w) && decide (n < 2 ^ (8 * w.byteCount))
  | .f32, .vf32 n => decide (n < 2 ^ 32)
  | .f64, .vf64 n => decide (n < 2 ^ 64)
  | .str, .vstr s => decide (s.length < 2 ^ 32) && s.all (fun b => decide (b < 256))
  | .bytes, .vbytes s => decide (s.length < 2 ^ 32) && s.all (fun b => decide (b < 256))
  | .array t, .varray vs => decide (vs.length < 2 ^ 32) && typeCheckArr t vs
  | .product es, .vproduct vs => typeCheckFields es vs
  | .sum vars, .vsum tag v => decide (tag < 256) && typeCheckVariant vars tag v
  | _, _ => false

/-- All elements of an array check against the element type. -/
def typeCheckArr : AlgebraicType → List AlgebraicValue → Bool
  | _, [] => true
  | t, v :: vs => typeCheck t v && typeCheckArr t vs

/-- A product value checks positionally against the element list. -/
def typeCheckFields : List ProductTypeElement → List AlgebraicValue → Bool
  | [], [] => true
  | .mk _ t :: es, v :: vs => typeCheck t v && typeCheckFields es vs
  | _, _ => false

/-- A sum payload checks against the type of the variant selected by the tag. -/
def typeCheckVariant : List ProductTypeElement → Nat → AlgebraicValue → Bool
  | [], _, _ => false
  | .mk _ t :: _, 0, v => typeCheck t v
  | _ :: es, n + 1, v => typeCheckVariant es n v
end

mutual
/-- Modelled from the spec: the BSATN value decoder (§4.2), inverse of
`encodeVal`, directed by the type.  Fails (`none`) on a short buffer or a
bad bool byte. -/
def decodeVal : AlgebraicType → List Nat → Option (AlgebraicValue × List Nat)
  | .bool, bs =>
      match bs with
      | 0 :: r => some (.vbool false, r)
      | 1 :: r => some (.vbool true, r)
      | _ => none
  | .uint w, bs => (readLE w.byteCount bs).map (fun p => (.vuint w p.1, p.2))
  | .int w, bs => (readLE w.byteCount bs).map (fun p => (.vint w p.1, p.2))
  | .f32, bs => (readLE 4 bs).map (fun p => (.vf32 p.1, p.2))
  | .f64, bs => (readLE 8 bs).map (fun p => (.vf64 p.1, p.2))
  | .str, bs =>
      match readLE 4 bs with
      | none => none
      | some (len, bs1) =>
          match takeExact len bs1 with
          | none => none
          | some (s, bs2) => some (.vstr s, bs2)
  | .bytes, bs =>
      match readLE 4 bs with
      | none => none
      | some (len, bs1) =>
          match takeExact len bs1 with
          | none => none
          | some (s, bs2) => some (.vbytes s, bs2)
  | .array t, bs =>
      match readLE 4 bs with
      | none => none
      | some (cnt, bs1) =>
          match decodeArr t cnt bs1 with
          | none => none
          | some (vs, bs2) => some (.varray vs, bs2)
  | .product es, bs => (decodeFields es bs).map (fun p => (.vproduct p.1, p.2))
  | .sum vars, bs =>
      match bs with
      | [] => none
      | tag :: bs1 => (decodeSumAt vars tag bs1).map (fun p => (.vsum tag p.1, p.2))
termination_by t _ => (sizeOf t, 0)

/-- Decode `n` consecutive values of the element type (array payload). -/
def decodeArr : AlgebraicType → Nat → List Nat → Option (List AlgebraicValue × List Nat)
  | _, 0, bs => some ([], bs)
  | t, n + 1, bs =>
      match decodeVal t bs with
      | none => none
      | some (v, bs1) =>
          match decodeArr t n bs1 with
          | none => none
          | some (vs, bs2) => some (v :: vs, bs2)
termination_by t n _ => (sizeOf t, n + 1)

/-- Decode the fields of a product value, in declared order. -/
def decodeFields : List ProductTypeElement → List Nat → Option (List AlgebraicValue × List Nat)
  | [], bs => some ([], bs)
  | .mk _ t :: es, bs =>
      match decodeVal t bs with
      | none => none
      | some (v, bs1) =>
          match decodeFields es bs1 with
          | none => none
          | some (vs, bs2) => some (v :: vs, bs2)
termination_by es _ => (sizeOf es, 0)

/-- Decode the payload of the variant selected by the tag. -/
def decodeSumAt : List ProductTypeElement → Nat → List Nat → Option (AlgebraicValue × List Nat)
  | [], _, _ => none
  | .mk _ t :: _, 0, bs => decodeVal t bs
  | _ :: es, n + 1, bs => decodeSumAt es n bs
termination_by es _ _ => (sizeOf es, 0)
end

/-- From `crates/bindings/src/lib.rs`: `encode_row` writes the BSATN encoding
of a `ProductValue` (its elements in order, untagged) into the byte buffer. -/
def encode_row (row : ProductValue) : List Nat :=
  encodeList row.elements

/-- From `crates/bindings/src/lib.rs`: `decode_row` reads a `ProductValue`
off a byte buffer, directed by the schema. -/
def decode_row (schema : ProductType) (bytes : List Nat) :
    Option (ProductValue × List Nat) :=
  (decodeFields schema.elements bytes).map (fun p => (⟨p.1⟩, p.2))

mutual
/-- Structural equality test on values, mirroring the derived `Eq` of the
Rust `AlgebraicValue`. -/
def beqVal : AlgebraicValue → AlgebraicValue → Bool
  | .vbool b, .vbool b' => b == b'
  | .vuint w n, .vuint w' n' => decide (w = w') && decide (n = n')
  | .vint w n, .vint w' n' => decide (w = w') && decide (n = n')
  | .vf32 n, .vf32 n' => decide (n = n')
  | .vf64 n, .vf64 n' => decide (n = n')
  | .vstr s, .vstr s' => decide (s = s')
  | .vbytes s, .vbytes s' => decide (s = s')
  | .varray vs, .varray vs' => beqValList vs vs'
  | .vproduct vs, .vproduct vs' => beqValList vs vs'
  | .vsum tag v, .vsum tag' v' => decide (tag = tag') && beqVal v v'
  | _, _ => false

/-- Pointwise structural equality of value lists. -/
def beqValList : List AlgebraicValue → List AlgebraicValue → Bool
  | [], [] => true
  | v :: vs, v' :: vs' => beqVal v v' && beqValList vs vs'
  | _, _ => false
end

/-- Tag byte of a type former in the encoded schema.  Modelled from the
spec: the concrete tag assignment of the sats `AlgebraicType` serializer is
not among the given sources; any fixed injective assignment realises §4.2's
"`u8` variant tag followed by that variant's payload". -/
def tyTag : AlgebraicType → Nat
  | .bool => 0
  | .uint .w8 => 1
  | .uint .w16 => 2
  | .uint .w32 => 3
  | .uint .w64 => 4
  | .uint .w128 => 5
  | .int .w8 => 6
  | .int .w16 => 7
  | .int .w32 => 8
  | .int .w64 => 9
  | .int .w128 => 10
  | .f32 => 11
  | .f64 => 12
  | .str => 13
  | .bytes => 14
  | .array _ => 15
  | .product _ => 16
  | .sum _ => 17

/-- Encoding of an optional field name: a presence tag byte, then for a
present name a `u32` length prefix and the UTF-8 bytes. -/
def encodeName : Option (List Nat) → List Nat
  | none => [0]
  | some s => 1 :: (natToLE 4 s.length ++ s)

mutual
/-- Modelled from the spec: the BSATN type (schema) encoder.  A type is
itself serialized as a sum over the type formers: a tag byte, then the
payload — the element type for `array`, a `u32`-counted element list for
`product`/`sum`, nothing for primitives. -/
def encodeTy : AlgebraicType → List Nat
  | .bool => [tyTag .bool]
  | .uint w => [tyTag (.uint w)]
  | .int w => [tyTag (.int w)]
  | .f32 => [tyTag .f32]
  | .f64 => [tyTag .f64]
  | .str => [tyTag .str]
  | .bytes => [tyTag .bytes]
  | .array t => tyTag (.array t) :: encodeTy t
  | .product es => tyTag (.product es) :: (natToLE 4 es.length ++ encodeElems es)
  | .sum es => tyTag (.sum es) :: (natToLE 4 es.length ++ encodeElems es)

/-- Concatenated encodings of product elements: optional name, then type. -/
def encodeElems : List ProductTypeElement → List Nat
  | [] => []
  | .mk nm t :: es => encodeName nm ++ (encodeTy t ++ encodeElems es)
end

/-- Well-formedness of an optional field name: the length fits the `u32`
prefix and every entry is a byte. -/
def wfName : Option (List Nat) → Bool
  | none => true
  | some s => decide (s.length < 2 ^ 32) && s.all (fun b => decide (b < 256))

mutual
/-- Well-formedness of a type: element-list lengths fit their `u32` count
prefixes and all names are well-formed. -/
def wfTy : AlgebraicType → Bool
  | .bool => true
  | .uint _ => true
  | .int _ => true
  | .f32 => true
  | .f64 => true
  | .str => true
  | .bytes => true
  | .array t => wfTy t
  | .product es => decide (es.length < 2 ^ 32) && wfElems es
  | .sum es => decide (es.length < 2 ^ 32) && wfElems es

/-- Well-formedness of a product-element list. -/
def wfElems : List ProductTypeElement → Bool
  | [] => true
  | .mk nm t :: es => wfName nm && (wfTy t && wfElems es)
end

mutual
/-- Nesting depth of a type; a fuel bound for the schema decoder. -/
def tyDepth : AlgebraicType → Nat
  | .bool => 1
  | .uint _ => 1
  | .int _ => 1
  | .f32 => 1
  | .f64 => 1
  | .str => 1
  | .bytes => 1
  | .array t => tyDepth t + 1
  | .product es => elemsDepth es + 1
  | .sum es => elemsDepth es + 1

/-- Maximal nesting depth over a product-element list. -/
def elemsDepth : List ProductTypeElement → Nat
  | [] => 0
  | .mk _ t :: es => max (tyDepth t) (elemsDepth es)
end

/-- Decode an optional field name. -/
def decodeName : List Nat → Option (Option (List Nat) × List Nat)
  | 0 :: r => some (none, r)
  | 1 :: r =>
      match readLE 4 r with
      | none => none
      | some (len, r1) =>
          match takeExact len r1 with
          | none => none
          | some (s, r2) => some (some s, r2)
  | _ => none

/-- The primitive type denoted by a tag byte, if any. -/
def primOfTag (b : Nat) : Option AlgebraicType :=
  if b = 0 then some .bool
  else if b = 1 then some (.uint .w8)
  else if b = 2 then some (.uint .w16)
  else if b = 3 then some (.uint .w32)
  else if b = 4 then some (.uint .w64)
  else if b = 5 then some (.uint .w128)
  else if b = 6 then some (.int .w8)
  else if b = 7 then some (.int .w16)
  else if b = 8 then some (.int .w32)
  else if b = 9 then some (.int .w64)
  else if b = 10 then some (.int .w128)
  else if b = 11 then some .f32
  else if b = 12 then some .f64
  else if b = 13 then some .str
  else if b = 14 then some .bytes
  else none

mutual
/-- Modelled from the spec: the BSATN type (schema) decoder, inverse of
`encodeTy`.  The `fuel` parameter bounds the nesting depth of the decoded
type; it is an embedding device for the unbounded recursion of the Rust
decoder and any `fuel ≥ tyDepth` of the encoded type behaves identically. -/
def decodeTy : Nat → List Nat → Option (AlgebraicType × List Nat)
  | 0, _ => none
  | fuel + 1, bs =>
      match bs with
      | [] => none
      | b :: r =>
          if b = 15 then (decodeTy fuel r).map (fun p => (.array p.1, p.2))
          else if b = 16 then
            match readLE 4 r with
            | none => none
            | some (cnt, r1) =>
                match decodeElemsN fuel cnt r1 with
                | none => none
                | some (es, r2) => some (.product es, r2)
          else if b = 17 then
            match readLE 4 r with
            | none => none
            | some (cnt, r1) =>
                match decodeElemsN fuel cnt r1 with
                | none => none
                | some (es, r2) => some (.sum es, r2)
          else (primOfTag b).map (fun p => (p, r))
termination_by fuel _ => (fuel, 0)

/-- Decode `n` consecutive product elements. -/
def decodeElemsN : Nat → Nat → List Nat → Option (List ProductTypeElement × List Nat)
  | _, 0, bs => some ([], bs)
  | fuel, n + 1, bs =>
      match decodeName bs with
      | none => none
      | some (nm, bs1) =>
          match decodeTy fuel bs1 with
          | none => none
          | some (t, bs2) =>
              match decodeElemsN fuel n bs2 with
              | none => none
              | some (es, bs3) => some (.mk nm t :: es, bs3)
termination_by fuel n _ => (fuel, n + 1)
end

/-- From `crates/bindings/src/lib.rs`: `encode_schema` writes the BSATN
encoding of a `ProductType` — its `u32`-counted element list. -/
def encode_schema (schema : ProductType) : List Nat :=
  natToLE 4 schema.elements.length ++ encodeElems schema.elements

/-- From `crates/bindings/src/lib.rs`: `decode_schema` reads a `ProductType`
off a byte buffer (`fuel` as in `decodeTy`). -/
def decode_schema (fuel : Nat) (bytes : List Nat) : Option (ProductType × List Nat) :=
  match readLE 4 bytes with
  | none => none
  | some (cnt, bs1) =>
      match decodeElemsN fuel cnt bs1 with
      | none => none
      | some (es, bs2) => some (⟨es⟩, bs2)

/-- Well-formedness of a product type, as a schema. -/
def wfProductType (schema : ProductType) : Bool :=
  decide (schema.elements.length < 2 ^ 32) && wfElems schema.elements

/-- Fuel bound for `decode_schema`. -/
def schemaDepth (schema : ProductType) : Nat :=
  elemsDepth schema.elements

/-- From `crates/core/src/db/datastore/traits.rs`: a column of a table.
`u32` ids are modelled as `Nat`, the name as its UTF-8 bytes. -/
structure ColumnSchema where
  table_id : Nat
  col_id : Nat
  col_name : List Nat
  col_type : AlgebraicType
  is_autoinc : Bool

/-- From `traits.rs`: an index on a single column. -/
structure IndexSchema where
  index_id : Nat
  table_id : Nat
  col_id : Nat
  index_name : List Nat
  is_unique : Bool

/-- From `traits.rs`: the catalog entry of a table. -/
structure TableSchema where
  table_id : Nat
  table_name : List Nat
  columns : List ColumnSchema
  indexes : List IndexSchema

/-- From `traits.rs`: `ColumnSchema` without the catalog ids. -/
structure ColumnDef where
  col_name : List Nat
  col_type : AlgebraicType
  is_autoinc : Bool

/-- From `traits.rs`: `IndexSchema` without the catalog id. -/
structure IndexDef where
  table_id : Nat
  col_id : Nat
  name : List Nat
  is_unique : Bool

/-- From `traits.rs`: `TableSchema` without the catalog ids. -/
structure TableDef where
  table_name : List Nat
  columns : List ColumnDef
  indexes : List IndexDef

/-- From `traits.rs`: `impl From<&ColumnSchema> for ProductTypeElement` —
the element is named with the column name. -/
def productTypeElementOfColumnSchema (c : ColumnSchema) : ProductTypeElement :=
  .mk (some c.col_name) c.col_type

/-- From `traits.rs`: `impl From<&TableSchema> for ProductType` — every
element carries `Some(col_name)`. -/
def productTypeOfTableSchema (ts : TableSchema) : ProductType :=
  ⟨ts.columns.map (fun c => .mk (some c.col_name) c.col_type)⟩

/-- From `traits.rs`: `TableDef::get_row_type` — every element's name is
`None`. -/
def TableDef.get_row_type (td : TableDef) : ProductType :=
  ⟨td.columns.map (fun c => .mk none c.col_type)⟩

/-- From `traits.rs`: `impl From<ColumnSchema> for ColumnDef`. -/
def columnDefOfColumnSchema (c : ColumnSchema) : ColumnDef :=
  ⟨c.col_name, c.col_type, c.is_autoinc⟩

/-- From `traits.rs`: `impl From<IndexSchema> for IndexDef`. -/
def indexDefOfIndexSchema (ix : IndexSchema) : IndexDef :=
  ⟨ix.table_id, ix.col_id, ix.index_name, ix.is_unique⟩

/-- From `traits.rs`: `impl From<TableSchema> for TableDef`. -/
def tableDefOfTableSchema (ts : TableSchema) : TableDef :=
  ⟨ts.table_name, ts.columns.map columnDefOfColumnSchema,
    ts.indexes.map indexDefOfIndexSchema⟩

/-- Modelled from the spec: `ColumnIndexAttribute` lives in the
`spacetimedb_lib` crate root, which is not among the given sources; the
variants are those referenced by `crates/lib/src/table.rs` and
`crates/core/src/db/datastore/traits.rs`. -/
inductive ColumnIndexAttribute
  | UnSet
  | Indexed
  | Unique
  | Identity
  | PrimaryKey
  | PrimaryKeyAuto
  | AutoInc
deriving DecidableEq

/-- Modelled from the spec: `ColumnIndexAttribute::is_autoinc` holds for the
attributes that draw from a sequence (`Identity`, `AutoInc`,
`PrimaryKeyAuto`), matching the filter in
`ProductTypeMeta::with_defaults`. -/
def ColumnIndexAttribute.is_autoinc : ColumnIndexAttribute → Bool
  | .Identity => true
  | .AutoInc => true
  | .PrimaryKeyAuto => true
  | _ => false

namespace Lib

/-- From `crates/lib/src/table.rs`: a column with its meta attribute and
position. -/
structure ColumnDef where
  column : ProductTypeElement
  attr : ColumnIndexAttribute
  pos : Nat

/-- From `crates/lib/src/table.rs`: columns plus parallel meta attributes. -/
structure ProductTypeMeta where
  columns : List ProductTypeElement
  attr : List ColumnIndexAttribute

/-- `ProductTypeMeta::new`: every column starts with the `UnSet` attribute. -/
def ProductTypeMeta.new (columns : ProductType) : ProductTypeMeta :=
  ⟨columns.elements, List.replicate columns.elements.length .UnSet⟩

/-- `ProductTypeMeta::with_capacity`: empty (capacity is not observable). -/
def ProductTypeMeta.with_capacity (_capacity : Nat) : ProductTypeMeta :=
  ⟨[], []⟩

/-- `ProductTypeMeta::clear`. -/
def ProductTypeMeta.clear (_m : ProductTypeMeta) : ProductTypeMeta :=
  ⟨[], []⟩

/-- `ProductTypeMeta::push`. -/
def ProductTypeMeta.push (m : ProductTypeMeta) (name : List Nat) (ty : AlgebraicType)
    (attr : ColumnIndexAttribute) : ProductTypeMeta :=
  ⟨m.columns ++ [ProductTypeElement.new ty (some name)], m.attr ++ [attr]⟩

/-- `ProductTypeMeta::remove`: returns the removed data and the shrunk
record; the Rust method's out-of-bounds panic is modelled as `none`. -/
def ProductTypeMeta.remove (m : ProductTypeMeta) (index : Nat) :
    Option ((ProductTypeElement × ColumnIndexAttribute) × ProductTypeMeta) :=
  match m.columns[index]?, m.attr[index]? with
  | some c, some a => some ((c, a), ⟨m.columns.eraseIdx index, m.attr.eraseIdx index⟩)
  | _, _ => none

/-- `ProductTypeMeta::with_attributes`: unzip a sequence of
column/attribute pairs. -/
def ProductTypeMeta.with_attributes (l : List (ProductTypeElement × ColumnIndexAttribute)) :
    ProductTypeMeta :=
  ⟨l.map Prod.fst, l.map Prod.snd⟩

/-- `impl FromIterator<&(&str, AlgebraicType, ColumnIndexAttribute)>`:
named elements paired with their attributes. -/
def ProductTypeMeta.from_iter (l : List (List Nat × AlgebraicType × ColumnIndexAttribute)) :
    ProductTypeMeta :=
  ProductTypeMeta.with_attributes
    (l.map (fun x => (ProductTypeElement.new x.2.1 (some x.1), x.2.2)))

/-- `ProductTypeMeta::len`. -/
def ProductTypeMeta.len (m : ProductTypeMeta) : Nat :=
  m.columns.length

/-- `ProductTypeMeta::is_empty`. -/
def ProductTypeMeta.is_empty (m : ProductTypeMeta) : Bool :=
  m.columns.isEmpty

/-- `ProductTypeMeta::iter`: zip columns with attributes and enumerate. -/
def ProductTypeMeta.iter (m : ProductTypeMeta) : List ColumnDef :=
  (m.columns.zip m.attr).enum.map (fun p => ⟨p.2.1, p.2.2, p.1⟩)

/-- `ProductTypeMeta::with_defaults`: the columns of a row whose attribute
draws a default from a sequence (`Identity`, `AutoInc`, `PrimaryKeyAuto`),
paired with the row value at the same position. -/
def ProductTypeMeta.with_defaults (m : ProductTypeMeta) (row : ProductValue) :
    List (ColumnDef × AlgebraicValue) :=
  (m.iter.zip row.elements).filter
    (fun p =>
      match p.1.attr with
      | .Identity => true
      | .AutoInc => true
      | .PrimaryKeyAuto => true
      | _ => false)

end Lib

namespace DB

/-- The datastore failure model (spec §4.4). -/
inductive DatastoreError
  | TableNotFound
  | ColumnNotFound
  | IndexNotFound
  | TypeMismatch
  | DecodeError
  | UniqueConstraintViolation
  | SequenceExhausted
  | Aborted
deriving DecidableEq

/-- Modelled from the spec: the in-memory state of one table under the
current mutable transaction — its catalog entry, the next sequence value of
each column position (spec §4.4, sequence semantics), and its rows.  The
datastore implementation (`locking_tx_datastore`) is not among the given
sources; only the `MutTxDatastore` trait is. -/
structure Table where
  schema : TableSchema
  seqs : Nat → Nat
  rows : List ProductValue

/-- Modelled from the spec: the datastore state visible to one mutable
transaction. -/
structure Datastore where
  tables : List Table

/-- Look a table up by id. -/
def findTable (db : Datastore) (table_id : Nat) : Option Table :=
  db.tables.find? (fun t => t.schema.table_id == table_id)

/-- Replace the table with the given id. -/
def updateTable (db : Datastore) (table_id : Nat) (tbl : Table) : Datastore :=
  ⟨db.tables.map (fun t => if t.schema.table_id == table_id then tbl else t)⟩

/-- Modelled from the spec: the value drawn from a sequence for an integer
column; `none` when the value no longer fits the column's width
(`SequenceExhausted`). -/
def seqValue (t : AlgebraicType) (seq : Nat) : Option AlgebraicValue :=
  match t with
  | .uint w => if seq < 2 ^ (8 * w.byteCount) then some (.vuint w seq) else none
  | .int w => if seq < 2 ^ (8 * w.byteCount) then some (.vint w seq) else none
  | _ => none

/-- Modelled from the spec: overwrite the values of `is_autoinc` columns
with their sequence values (spec §4.4, `insert`); `idx` is the position of
the first listed column. -/
def assignVals : List ColumnSchema → (Nat → Nat) → Nat → List AlgebraicValue →
    Except DatastoreError (List AlgebraicValue)
  | [], _, _, [] => .ok []
  | c :: cs, seqs, idx, v :: vs =>
      let hd : Except DatastoreError AlgebraicValue :=
        if c.is_autoinc then
          match seqValue c.col_type (seqs idx) with
          | some v' => .ok v'
          | none => .error .SequenceExhausted
        else .ok v
      match hd with
      | .error e => .error e
      | .ok v' =>
          match assignVals cs seqs (idx + 1) vs with
          | .error e => .error e
          | .ok vs' => .ok (v' :: vs')
  | _, _, _, _ => .error .TypeMismatch

/-- Advance the sequence of every `is_autoinc` column. -/
def bumpSeqs (cols : List ColumnSchema) (seqs : Nat → Nat) : Nat → Nat :=
  fun i =>
    match cols[i]? with
    | some c => if c.is_autoinc then seqs i + 1 else seqs i
    | none => seqs i

/-- Projection of a row on a column position. -/
def projCol (row : ProductValue) (col_id : Nat) : Option AlgebraicValue :=
  row.elements[col_id]?

/-- Whether the row's projection on `col_id` equals `v`. -/
def rowMatches (row : ProductValue) (col_id : Nat) (v : AlgebraicValue) : Bool :=
  match projCol row col_id with
  | some x => beqVal x v
  | none => false

/-- Whether inserting `row` would violate some unique index of the table
(spec §4.4: unique indexes forbid two rows with equal projected key). -/
def uniqueConflict (tbl : Table) (row : ProductValue) : Bool :=
  tbl.schema.indexes.any (fun ix =>
    ix.is_unique && tbl.rows.any (fun r =>
      match projCol r ix.col_id, projCol row ix.col_id with
      | some a, some b => beqVal a b
      | _, _ => false))

/-- Modelled from the spec: `MutTxDatastore::insert_row_mut_tx` (its
implementation is not among the given sources; the trait gives the
signature `... -> Result<ProductValue>`).  Per spec §4.4 it validates the
row against the table's product type, assigns sequence values for
`is_autoinc` columns, checks every unique index and fails with
`UniqueConstraintViolation` on conflict; per the trait signature the
success value is the post-insert row. -/
def insert_row_mut_tx (db : Datastore) (table_id : Nat) (row : ProductValue) :
    Except DatastoreError (ProductValue × Datastore) :=
  match findTable db table_id with
  | none => .error .TableNotFound
  | some tbl =>
      if typeCheckFields (productTypeOfTableSchema tbl.schema).elements row.elements then
        match assignVals tbl.schema.columns tbl.seqs 0 row.elements with
        | .error e => .error e
        | .ok vals =>
            let updated : ProductValue := ⟨vals⟩
            if uniqueConflict tbl updated then .error .UniqueConstraintViolation
            else
              .ok (updated,
                updateTable db table_id
                  { tbl with
                    rows := tbl.rows ++ [updated]
                    seqs := bumpSeqs tbl.schema.columns tbl.seqs })
      else .error .TypeMismatch

/-- Modelled from the spec: `MutDatastore::insert_row`, the variant whose
trait signature returns `Result<Self::RowId>`; the opaque row id is the
index of the appended row. -/
def insert_row (db : Datastore) (table_id : Nat) (row : ProductValue) :
    Except DatastoreError (Nat × Datastore) :=
  match findTable db table_id with
  | none => .error .TableNotFound
  | some tbl =>
      match insert_row_mut_tx db table_id row with
      | .error e => .error e
      | .ok (_, db') => .ok (tbl.rows.length, db')

/-- Modelled from the spec: the host-side `delete_eq` (spec §4.4
`delete_eq(col_id, value) → u32`; realised through
`MutTxDatastore::delete_rows_in_mut_tx`, whose implementation is not among
the given sources): delete every row whose projection on `col_id` equals
`value` and return how many were deleted. -/
def delete_eq (db : Datastore) (table_id col_id : Nat) (value : AlgebraicValue) :
    Except DatastoreError (Nat × Datastore) :=
  match findTable db table_id with
  | none => .error .TableNotFound
  | some tbl =>
      .ok (tbl.rows.countP (fun r => rowMatches r col_id value),
        updateTable db table_id
          { tbl with rows := tbl.rows.filter (fun r => ! rowMatches r col_id value) })

end DB

/-- From `crates/core/src/sql/execute.rs` (via `spacetimedb_sats::relation`):
an in-memory result table. -/
structure MemTable where
  head : ProductType
  data : List ProductValue

/-- A user-level VM error carried by `CodeResult::Halt`. -/
inductive ErrorVm where
  | err (msg : List Nat)

/-- The error type of `collect_result`; `collect_result` only ever produces
the `VmUser` variant (`DBError::VmUser(err)`). -/
inductive DBError where
  | VmUser (e : ErrorVm)

/-- From `spacetimedb_vm::expr::CodeResult` as consumed by
`crates/core/src/sql/execute.rs`. -/
inductive CodeResult where
  | Value (v : AlgebraicValue)
  | Table (x : MemTable)
  | Block (lines : List CodeResult)
  | Pass
  | Halt (err : ErrorVm)

mutual
/-- From `crates/core/src/sql/execute.rs`: `collect_result`.  The Rust
function pushes `Table` results onto `&mut Vec<MemTable>` and returns
`Result<(), DBError>`; here the vector is threaded as an accumulator and
the early `return Err` is the `some` error component — the accumulator
keeps whatever was pushed before the error, exactly like the Rust `Vec`. -/
def collect_result (result : List MemTable) : CodeResult → List MemTable × Option DBError
  | .Value _ => (result, none)
  | .Table x => (result ++ [x], none)
  | .Block lines => collect_result_list result lines
  | .Halt err => (result, some (.VmUser err))
  | .Pass => (result, none)

/-- The `for x in lines { collect_result(result, x)?; }` loop. -/
def collect_result_list (result : List MemTable) :
    List CodeResult → List MemTable × Option DBError
  | [] => (result, none)
  | x :: xs =>
      match collect_result result x with
      | (r, none) => collect_result_list r xs
      | (r, some e) => (r, some e)
end

mutual
/-- Transcribed from the claim: the `Table` results of the nodes preceding
the first `Halt`, in order ("the collected output contains exactly the
Table results of the nodes preceding the first Halt").  Compared against
`collect_result` below. -/
def specCollectedTables : CodeResult → List MemTable
  | .Value _ => []
  | .Table x => [x]
  | .Block lines => specCollectedTablesList lines
  | .Halt _ => []
  | .Pass => []

/-- List version of `specCollectedTables`: collection stops at the first
halting node. -/
def specCollectedTablesList : List CodeResult → List MemTable
  | [] => []
  | x :: xs =>
      match specFirstHalt x with
      | none => specCollectedTables x ++ specCollectedTablesList xs
      | some _ => specCollectedTables x

/-- Transcribed from the claim: the error of the first `Halt`, if any. -/
def specFirstHalt : CodeResult → Option DBError
  | .Value _ => none
  | .Table _ => none
  | .Block lines => specFirstHaltList lines
  | .Halt err => some (.VmUser err)
  | .Pass => none

/-- List version of `specFirstHalt`. -/
def specFirstHaltList : List CodeResult → Option DBError
  | [] => none
  | x :: xs =>
      match specFirstHalt x with
      | none => specFirstHaltList xs
      | some e => some e
end

namespace Bindings

/-- Modelled from the spec: `Errno` lives in the `bindings-sys` crate,
which is not among the given sources; the spec (§6) fixes the minimum
variant set. -/
inductive Errno
  | EXISTS
  | NO_SUCH_TABLE
  | NO_SUCH_COLUMN
  | DECODE
  | ABORTED
deriving DecidableEq

/-- From `crates/bindings/src/lib.rs`: the `HAS_AUTOINC` const-fn loop —
walk `COLUMN_ATTRS` and stop at the first autoinc attribute. -/
def hasAutoincGo : List ColumnIndexAttribute → Bool
  | [] => false
  | a :: rest => if a.is_autoinc then true else hasAutoincGo rest

/-- From `crates/bindings/src/lib.rs`: `<T as HasAutoinc>::HAS_AUTOINC`. -/
def HAS_AUTOINC (attrs : List ColumnIndexAttribute) : Bool :=
  hasAutoincGo attrs

/-- From `crates/bindings/src/lib.rs`: the guest-side `insert`.  The host
call `sys::insert` is abstracted as `hostInsert`, returning the post-call
content of the shared row buffer together with the status: the guest
encodes the row into the buffer, calls the host, and on success either
re-decodes the buffer (when the table has an autoinc column — the host
overwrote it in place with the post-insert row) or returns the original
row.  The `none` success payload models the `expect("decode error")`
panic; decoding a `TableType` value is type-directed in Rust and is
rendered as `decode_row` at the table's product type. -/
def insert {σ : Type} (hostInsert : σ → Nat → List Nat → σ × Except Errno (List Nat))
    (attrs : List ColumnIndexAttribute) (schema : ProductType) (s : σ) (table_id : Nat)
    (row : ProductValue) : σ × Except Errno (Option ProductValue) :=
  let r := hostInsert s table_id (encode_row row)
  (r.1, r.2.map (fun newBytes =>
    if HAS_AUTOINC attrs then (decode_row schema newBytes).map Prod.fst
    else some row))

/-- From `crates/bindings/src/lib.rs`: the guest-side `delete_eq` —
serialize the comparison value into the row buffer and forward to the host
(`sys::delete_eq`), abstracted as `hostDeleteEq`. -/
def delete_eq {σ : Type} (hostDeleteEq : σ → Nat → Nat → List Nat → σ × Except Errno Nat)
    (s : σ) (table_id col_id : Nat) (eq_value : AlgebraicValue) : σ × Except Errno Nat :=
  hostDeleteEq s table_id col_id (encodeVal eq_value)

/-- From `crates/bindings/src/lib.rs` (`mod query`): `delete_by_field` —
any error from `delete_eq` becomes `false`; a success is `count > 0`. -/
def delete_by_field {σ : Type} (hostDeleteEq : σ → Nat → Nat → List Nat → σ × Except Errno Nat)
    (s : σ) (table_id col_id : Nat) (val : AlgebraicValue) : σ × Bool :=
  let r := delete_eq hostDeleteEq s table_id col_id val
  (r.1,
    match r.2 with
    | .error _ => false
    | .ok count => decide (0 < count))

/-- From `crates/bindings/src/lib.rs` (`mod query`): `update_by_field` —
`delete_by_field` then `Table::insert`, discarding both results and
returning `true` ("For now this is always successful"). -/
def update_by_field {σ : Type}
    (hostDeleteEq : σ → Nat → Nat → List Nat → σ × Except Errno Nat)
    (hostInsert : σ → Nat → List Nat → σ × Except Errno (List Nat))
    (attrs : List ColumnIndexAttribute) (schema : ProductType) (s : σ)
    (table_id col_id : Nat) (val : AlgebraicValue) (new_value : ProductValue) : σ × Bool :=
  let r1 := delete_by_field hostDeleteEq s table_id col_id val
  let r2 := insert hostInsert attrs schema r1.1 table_id new_value
  (r2.1, true)

/-- From `crates/bindings/src/lib.rs`: the state of `RawTableIter` — the
remaining buffers of the underlying `BufferIter` and the unread part of the
current buffer (`None`: a new buffer must be pulled). -/
structure RawTableIterS where
  inner : List (List Nat)
  reader : Option (List Nat)

/-- Outcome of one `RawTableIter::next` call: iteration complete, a decode
panic, or one decoded row with the successor state. -/
inductive RawStep where
  | done
  | fail
  | yield (v : ProductValue) (s : RawTableIterS)

/-- Decode one row off the reader (the `deserialize` call after the loop). -/
def decodeStep (schema : ProductType) (r : List Nat) (inner : List (List Nat)) : RawStep :=
  match decode_row schema r with
  | none => .fail
  | some (v, rest) => .yield v ⟨inner, some rest⟩

/-- From `crates/bindings/src/lib.rs`: `RawTableIter::next`.  A reader with
no remaining bytes is dropped and the next buffer pulled; an absent reader
pulls a buffer; iteration ends when the buffer iterator is exhausted; then
one row is decoded from the reader. -/
def rawNext (schema : ProductType) (s : RawTableIterS) : RawStep :=
  match s.reader with
  | some r =>
      if r.isEmpty then
        match s.inner with
        | [] => .done
        | b :: bs => decodeStep schema b bs
      else decodeStep schema r s.inner
  | none =>
      match s.inner with
      | [] => .done
      | b :: bs => decodeStep schema b bs

/-- Run the iterator to completion, collecting the yielded rows; `fuel`
bounds the number of `next` calls (one per row plus the final empty call)
and `none` is returned on fuel exhaustion or a decode panic. -/
def runRawIter (schema : ProductType) : Nat → RawTableIterS → Option (List ProductValue)
  | 0, _ => none
  | fuel + 1, s =>
      match rawNext schema s with
      | .done => some []
      | .fail => none
      | .yield v s' => (runRawIter schema fuel s').map (fun l => v :: l)

/-- From `crates/bindings/src/lib.rs`: `buffer_table_iter` — the first
buffer yielded by `sys::iter` is decoded as the table's product-type
schema (`none` models the `expect` panics on a missing or undecodable
schema buffer); the remaining buffers are handed to `RawTableIter`. -/
def buffer_table_iter (fuel : Nat) (buffers : List (List Nat)) :
    Option (ProductType × List (List Nat)) :=
  match buffers with
  | [] => none
  | b :: rest => (decode_schema fuel b).map (fun p => (p.1, rest))

end Bindings

/-- A concrete two-column table (autoinc `u64` id, string name) used to
exhibit the return value of the insert operations: catalog entry with
`table_id = 16`. -/
def demoSchema : TableSchema :=
  { table_id := 16
    table_name := [105, 110, 118]
    columns :=
      [ { table_id := 16, col_id := 0, col_name := [105, 100], col_type := .uint .w64,
          is_autoinc := true }
      , { table_id := 16, col_id := 1, col_name := [110, 97, 109, 101], col_type := .str,
          is_autoinc := false } ]
    indexes := [] }

/-- The demo datastore: the demo table, empty, with its sequence at 1. -/
def demoDB : DB.Datastore :=
  ⟨[{ schema := demoSchema, seqs := fun _ => 1, rows := [] }]⟩

/-- A demo row with an autoinc placeholder id and string payload `"x"`. -/
def demoRowA : ProductValue :=
  ⟨[.vuint .w64 0, .vstr [120]]⟩

/-- A second demo row identical except for string payload `"y"`. -/
def demoRowB : ProductValue :=
  ⟨[.vuint .w64 0, .vstr [121]]⟩

/-- A demo host whose `delete_eq` always fails. -/
def demoHostErr : Unit → Nat → Nat → List Nat → Unit × Except Bindings.Errno Nat :=
  fun _ _ _ _ => ((), .error .ABORTED)

/-- A demo host whose `delete_eq` always reports two deleted rows. -/
def demoHostOk2 : Unit → Nat → Nat → List Nat → Unit × Except Bindings.Errno Nat :=
  fun _ _ _ _ => ((), .ok 2)

/-- A demo host whose `insert` succeeds and leaves `[7]` in the row buffer. -/
def demoHostBuf : Unit → Nat → List Nat → Unit × Except Bindings.Errno (List Nat) :=
  fun _ _ _ => ((), .ok [7])

/-- The demo table populated with two rows (ids 1 and 2). -/
def demoTable2 : DB.Table :=
  { schema := demoSchema
    seqs := fun _ => 3
    rows := [⟨[.vuint .w64 1, .vstr [120]]⟩, ⟨[.vuint .w64 2, .vstr [121]]⟩] }

/-- A demo datastore holding the populated demo table. -/
def demoDB2 : DB.Datastore :=
  ⟨[demoTable2]⟩

/-! ### Theorems -/

/-- Reading back `k` little-endian bytes recovers the encoded number and
leaves the rest of the buffer untouched. -/
theorem readLE_natToLE (k : Nat) : ∀ (n : Nat) (rest : List Nat), n < 256 ^ k →
    readLE k (natToLE k n ++ rest) = some (n, rest) := by
  induction k with
  | zero =>
      intro n rest h
      interval_cases n
      simp [natToLE, readLE]
  | succ k ih =>
      intro n rest h
      have h2 : n / 256 < 256 ^ k := by
        rw [Nat.div_lt_iff_lt_mul (by norm_num)]
        calc n < 256 ^ (k + 1) := h
        _ = 256 ^ k * 256 := by ring
      simp [natToLE, readLE, ih (n / 256) rest h2, Nat.mod_add_div]

/-- Splitting a buffer at the length of a known prefix recovers the prefix. -/
theorem takeExact_append : ∀ (s rest : List Nat), takeExact s.length (s ++ rest) = some (s, rest) := by
  intro s
  induction s with
  | nil => intro rest; simp [takeExact]
  | cons b s ih => intro rest; simp [takeExact, ih]

/-- Width bounds in base 2 and base 256 coincide. -/
theorem pow256 (k : Nat) : 2 ^ (8 * k) = 256 ^ k := by
  rw [Nat.pow_mul]

mutual
/-- Decoding the encoding of a well-formed typed value at its type yields
the value back and leaves the rest of the buffer untouched. -/
theorem decode_encode (t : AlgebraicType) (v : AlgebraicValue) (h : typeCheck t v = true)
    (rest : List Nat) : decodeVal t (encodeVal v ++ rest) = some (v, rest) := by
  cases v with
  | vbool b =>
      cases t <;> simp [typeCheck] at h
      cases b <;> simp [encodeVal, decodeVal]
  | vuint w' n =>
      cases t <;> simp [typeCheck] at h
      obtain ⟨rfl, hn⟩ := h
      rw [pow256] at hn
      simp [encodeVal, decodeVal, readLE_natToLE _ _ _ hn]
  | vint w' n =>
      cases t <;> simp [typeCheck] at h
      obtain ⟨rfl, hn⟩ := h
      rw [pow256] at hn
      simp [encodeVal, decodeVal, readLE_natToLE _ _ _ hn]
  | vf32 n =>
      cases t <;> simp [typeCheck] at h
      have hn : n < 256 ^ 4 := by norm_num at h ⊢; omega
      simp [encodeVal, decodeVal, readLE_natToLE _ _ _ hn]
  | vf64 n =>
      cases t <;> simp [typeCheck] at h
      have hn : n < 256 ^ 8 := by norm_num at h ⊢; omega
      simp [encodeVal, decodeVal, readLE_natToLE _ _ _ hn]
  | vstr s =>
      cases t <;> simp [typeCheck] at h
      have hlen : s.length < 256 ^ 4 := by
        have := h.1
        norm_num at this ⊢
        omega
      simp [encodeVal, decodeVal, List.append_assoc, readLE_natToLE 4 s.length (s ++ rest) hlen,
        takeExact_append]
  | vbytes s =>
      cases t <;> simp [typeCheck] at h
      have hlen : s.length < 256 ^ 4 := by
        have := h.1
        norm_num at this ⊢
        omega
      simp [encodeVal, decodeVal, List.append_assoc, readLE_natToLE 4 s.length (s ++ rest) hlen,
        takeExact_append]
  | varray vs =>
      cases t <;> simp [typeCheck] at h
      rename_i t
      have hlen : vs.length < 256 ^ 4 := by
        have := h.1
        norm_num at this ⊢
        omega
      simp [encodeVal, decodeVal, List.append_assoc,
        readLE_natToLE 4 vs.length (encodeList vs ++ rest) hlen,
        decode_encode_arr t vs h.2 rest]
  | vproduct vs =>
      cases t <;> simp [typeCheck] at h
      rename_i es
      simp [encodeVal, decodeVal, decode_encode_fields es vs h rest]
  | vsum tag pv =>
      cases t <;> simp [typeCheck] at h
      rename_i vars
      simp [encodeVal, decodeVal, decode_encode_variant vars tag pv h.2 rest]
termination_by (sizeOf v, 0, 0)

/-- Round trip for the element list of an array. -/
theorem decode_encode_arr (t : AlgebraicType) (vs : List AlgebraicValue)
    (h : typeCheckArr t vs = true) (rest : List Nat) :
    decodeArr t vs.length (encodeList vs ++ rest) = some (vs, rest) := by
  cases vs with
  | nil => simp [encodeList, decodeArr]
  | cons v vs' =>
      simp only [typeCheckArr, Bool.and_eq_true] at h
      simp [encodeList, decodeArr, List.append_assoc, decode_encode t v h.1,
        decode_encode_arr t vs' h.2 rest]
termination_by (sizeOf vs, 1, 0)

/-- Round trip for the field list of a product value. -/
theorem decode_encode_fields (es : List ProductTypeElement) (vs : List AlgebraicValue)
    (h : typeCheckFields es vs = true) (rest : List Nat) :
    decodeFields es (encodeList vs ++ rest) = some (vs, rest) := by
  cases es with
  | nil =>
      cases vs with
      | nil => simp [encodeList, decodeFields]
      | cons v vs' => simp [typeCheckFields] at h
  | cons e es' =>
      obtain ⟨nm, t⟩ := e
      cases vs with
      | nil => simp [typeCheckFields] at h
      | cons v vs' =>
          simp only [typeCheckFields, Bool.and_eq_true] at h
          simp [encodeList, decodeFields, List.append_assoc, decode_encode t v h.1,
            decode_encode_fields es' vs' h.2 rest]
termination_by (sizeOf vs, 1, 0)

/-- Round trip for a sum payload at the variant selected by the tag. -/
theorem decode_encode_variant (vars : List ProductTypeElement) (tag : Nat) (v : AlgebraicValue)
    (h : typeCheckVariant vars tag v = true) (rest : List Nat) :
    decodeSumAt vars tag (encodeVal v ++ rest) = some (v, rest) := by
  cases vars with
  | nil => simp [typeCheckVariant] at h
  | cons e es =>
      obtain ⟨nm, t⟩ := e
      cases tag with
      | zero =>
          simp only [typeCheckVariant] at h
          simp [decodeSumAt, decode_encode t v h rest]
      | succ n =>
          simp only [typeCheckVariant] at h
          simp [decodeSumAt, decode_encode_variant es n v h rest]
termination_by (sizeOf v, 1, sizeOf vars)
end

mutual
/-- Structural value equality is decided by `beqVal`. -/
theorem beqVal_iff (a b : AlgebraicValue) : beqVal a b = true ↔ a = b := by
  cases a with
  | vbool x => cases b <;> simp [beqVal]
  | vuint w n => cases b <;> simp [beqVal]
  | vint w n => cases b <;> simp [beqVal]
  | vf32 n => cases b <;> simp [beqVal]
  | vf64 n => cases b <;> simp [beqVal]
  | vstr s => cases b <;> simp [beqVal]
  | vbytes s => cases b <;> simp [beqVal]
  | varray vs =>
      cases b <;> simp [beqVal]
      rename_i vs'
      exact beqValList_iff vs vs'
  | vproduct vs =>
      cases b <;> simp [beqVal]
      rename_i vs'
      exact beqValList_iff vs vs'
  | vsum tag v =>
      cases b <;> simp [beqVal]
      rename_i tag' v'
      intro _
      exact beqVal_iff v v'
termination_by (sizeOf a, 0)

/-- Pointwise structural equality of value lists is decided by `beqValList`. -/
theorem beqValList_iff (as bs : List AlgebraicValue) : beqValList as bs = true ↔ as = bs := by
  cases as with
  | nil => cases bs <;> simp [beqValList]
  | cons a as' =>
      cases bs with
      | nil => simp [beqValList]
      | cons b bs' =>
          simp [beqValList, beqVal_iff a b, beqValList_iff as' bs']
termination_by (sizeOf as, 1)
end

/-- Every type has positive depth. -/
theorem tyDepth_pos (t : AlgebraicType) : 1 ≤ tyDepth t := by
  cases t <;> simp [tyDepth]

/-- Decoding the encoding of a well-formed optional field name recovers it. -/
theorem decodeName_encodeName (nm : Option (List Nat)) (rest : List Nat)
    (h : wfName nm = true) : decodeName (encodeName nm ++ rest) = some (nm, rest) := by
  cases nm with
  | none => simp [encodeName, decodeName]
  | some s =>
      simp only [wfName, Bool.and_eq_true, decide_eq_true_eq] at h
      have hlen : s.length < 256 ^ 4 := by
        have := h.1
        norm_num at this ⊢
        omega
      simp [encodeName, decodeName, List.append_assoc,
        readLE_natToLE 4 s.length (s ++ rest) hlen, takeExact_append]

mutual
/-- Decoding the encoding of a well-formed type recovers it, for any fuel at
least its depth. -/
theorem decodeTy_encodeTy (fuel : Nat) (t : AlgebraicType) (hwf : wfTy t = true)
    (hd : tyDepth t ≤ fuel) (rest : List Nat) :
    decodeTy fuel (encodeTy t ++ rest) = some (t, rest) := by
  cases fuel with
  | zero => exact absurd (Nat.le_trans (tyDepth_pos t) hd) (by omega)
  | succ f =>
      cases t with
      | bool => simp [encodeTy, tyTag, decodeTy, primOfTag]
      | uint w => cases w <;> simp [encodeTy, tyTag, decodeTy, primOfTag]
      | int w => cases w <;> simp [encodeTy, tyTag, decodeTy, primOfTag]
      | f32 => simp [encodeTy, tyTag, decodeTy, primOfTag]
      | f64 => simp [encodeTy, tyTag, decodeTy, primOfTag]
      | str => simp [encodeTy, tyTag, decodeTy, primOfTag]
      | bytes => simp [encodeTy, tyTag, decodeTy, primOfTag]
      | array t' =>
          simp only [wfTy] at hwf
          simp only [tyDepth] at hd
          simp [encodeTy, tyTag, decodeTy,
            decodeTy_encodeTy f t' hwf (by omega) rest]
      | product es =>
          simp only [wfTy, Bool.and_eq_true, decide_eq_true_eq] at hwf
          simp only [tyDepth] at hd
          have hlen : es.length < 256 ^ 4 := by
            have := hwf.1
            norm_num at this ⊢
            omega
          simp [encodeTy, tyTag, decodeTy, List.append_assoc,
            readLE_natToLE 4 es.length (encodeElems es ++ rest) hlen,
            decodeElemsN_encodeElems f es hwf.2 (by omega) rest]
      | sum es =>
          simp only [wfTy, Bool.and_eq_true, decide_eq_true_eq] at hwf
          simp only [tyDepth] at hd
          have hlen : es.length < 256 ^ 4 := by
            have := hwf.1
            norm_num at this ⊢
            omega
          simp [encodeTy, tyTag, decodeTy, List.append_assoc,
            readLE_natToLE 4 es.length (encodeElems es ++ rest) hlen,
            decodeElemsN_encodeElems f es hwf.2 (by omega) rest]
termination_by (fuel, 0)

/-- Decoding the encoding of a well-formed element list recovers it. -/
theorem decodeElemsN_encodeElems (fuel : Nat) (es : List ProductTypeElement)
    (hwf : wfElems es = true) (hd : elemsDepth es ≤ fuel) (rest : List Nat) :
    decodeElemsN fuel es.length (encodeElems es ++ rest) = some (es, rest) := by
  cases es with
  | nil => simp [encodeElems, decodeElemsN]
  | cons e es' =>
      obtain ⟨nm, t⟩ := e
      simp only [wfElems, Bool.and_eq_true] at hwf
      simp only [elemsDepth, Nat.max_le] at hd
      simp [encodeElems, decodeElemsN, List.append_assoc,
        decodeName_encodeName nm (encodeTy t ++ (encodeElems es' ++ rest)) hwf.1,
        decodeTy_encodeTy fuel t hwf.2.1 hd.1 (encodeElems es' ++ rest),
        decodeElemsN_encodeElems fuel es' hwf.2.2 hd.2 rest]
termination_by (fuel, es.length + 1)
end

/-- Row-level round trip: `decode_row` after `encode_row`. -/
theorem decode_row_encode_row (schema : ProductType) (row : ProductValue) (rest : List Nat)
    (h : typeCheckFields schema.elements row.elements = true) :
    decode_row schema (encode_row row ++ rest) = some (row, rest) := by
  obtain ⟨es⟩ := schema
  obtain ⟨vs⟩ := row
  simp only at h
  simp [decode_row, encode_row, decode_encode_fields es vs h rest]

/-- Schema-level round trip: `decode_schema` after `encode_schema`. -/
theorem decode_schema_encode_schema (schema : ProductType) (fuel : Nat) (rest : List Nat)
    (hwf : wfProductType schema = true) (hd : schemaDepth schema ≤ fuel) :
    decode_schema fuel (encode_schema schema ++ rest) = some (schema, rest) := by
  obtain ⟨es⟩ := schema
  simp only [wfProductType, Bool.and_eq_true, decide_eq_true_eq] at hwf
  simp only [schemaDepth] at hd
  have hlen : es.length < 256 ^ 4 := by
    have := hwf.1
    norm_num at this ⊢
    omega
  simp [encode_schema, decode_schema, List.append_assoc,
    readLE_natToLE 4 es.length (encodeElems es ++ rest) hlen,
    decodeElemsN_encodeElems fuel es hwf.2 hd rest]

/-- C1: for every well-formed typed value `v` with type `t`, decoding the
BSATN encoding of `v` at `t` yields `v` (also stated for `encode_row` /
`decode_row` over `ProductValue` and `encode_schema` / `decode_schema` over
`ProductType`), and the encoder is deterministic: equal values produce
byte-identical outputs. -/
theorem bsatn_round_trip :
    (∀ (t : AlgebraicType) (v : AlgebraicValue) (rest : List Nat), typeCheck t v = true →
        decodeVal t (encodeVal v ++ rest) = some (v, rest))
  ∧ (∀ (schema : ProductType) (row : ProductValue) (rest : List Nat),
        typeCheckFields schema.elements row.elements = true →
        decode_row schema (encode_row row ++ rest) = some (row, rest))
  ∧ (∀ (schema : ProductType) (fuel : Nat) (rest : List Nat),
        wfProductType schema = true → schemaDepth schema ≤ fuel →
        decode_schema fuel (encode_schema schema ++ rest) = some (schema, rest))
  ∧ (∀ v w : AlgebraicValue, v = w → encodeVal v = encodeVal w) := by
  refine ⟨?_, ?_, ?_, ?_⟩
  · intro t v rest h
    exact decode_encode t v h rest
  · intro schema row rest h
    exact decode_row_encode_row schema row rest h
  · intro schema fuel rest hwf hd
    exact decode_schema_encode_schema schema fuel rest hwf hd
  · intro v w h
    rw [h]

/-- Witness for C1 at concrete inputs: a one-field product value, a row, and
a named one-column schema. -/
theorem bsatn_round_trip_witness :
    (typeCheck (.product [.mk none .bool]) (.vproduct [.vbool true]) = true
      ∧ decodeVal (.product [.mk none .bool]) (encodeVal (.vproduct [.vbool true]) ++ [9]) =
          some (.vproduct [.vbool true], [9]))
  ∧ (typeCheckFields (ProductType.mk [.mk none (.uint .w8)]).elements
        (ProductValue.mk [.vuint .w8 7]).elements = true
      ∧ decode_row ⟨[.mk none (.uint .w8)]⟩ (encode_row ⟨[.vuint .w8 7]⟩ ++ [3]) =
          some (⟨[.vuint .w8 7]⟩, [3]))
  ∧ (wfProductType ⟨[.mk (some [97]) .bool]⟩ = true
      ∧ schemaDepth ⟨[.mk (some [97]) .bool]⟩ ≤ 1
      ∧ decode_schema 1 (encode_schema ⟨[.mk (some [97]) .bool]⟩ ++ [5]) =
          some (⟨[.mk (some [97]) .bool]⟩, [5])) := by
  have h1 : typeCheck (.product [.mk none .bool]) (.vproduct [.vbool true]) = true := by
    simp [typeCheck, typeCheckFields]
  have h2 : typeCheckFields (ProductType.mk [.mk none (.uint .w8)]).elements
      (ProductValue.mk [.vuint .w8 7]).elements = true := by
    simp [typeCheck, typeCheckFields, IntWidth.byteCount]
  have h3 : wfProductType ⟨[.mk (some [97]) .bool]⟩ = true := by
    simp [wfProductType, wfElems, wfName, wfTy]
  have h4 : schemaDepth ⟨[.mk (some [97]) .bool]⟩ ≤ 1 := by
    simp [schemaDepth, elemsDepth, tyDepth]
  exact ⟨⟨h1, bsatn_round_trip.1 _ _ [9] h1⟩,
    ⟨h2, bsatn_round_trip.2.1 _ _ [3] h2⟩,
    ⟨h3, h4, bsatn_round_trip.2.2.1 _ 1 [5] h3 h4⟩⟩

mutual
/-- `collect_result` is append of the tables collected up to the first halt,
together with that halt's error. -/
theorem collect_result_eq (res : List MemTable) (c : CodeResult) :
    collect_result res c = (res ++ specCollectedTables c, specFirstHalt c) := by
  cases c with
  | Value v => simp [collect_result, specCollectedTables, specFirstHalt]
  | Table x => simp [collect_result, specCollectedTables, specFirstHalt]
  | Pass => simp [collect_result, specCollectedTables, specFirstHalt]
  | Halt e => simp [collect_result, specCollectedTables, specFirstHalt]
  | Block lines =>
      simp only [collect_result, specCollectedTables, specFirstHalt]
      exact collect_result_list_eq res lines
termination_by (sizeOf c, 0)

/-- List version of `collect_result_eq`. -/
theorem collect_result_list_eq (res : List MemTable) (xs : List CodeResult) :
    collect_result_list res xs =
      (res ++ specCollectedTablesList xs, specFirstHaltList xs) := by
  cases xs with
  | nil => simp [collect_result_list, specCollectedTablesList, specFirstHaltList]
  | cons x xs' =>
      have hx := collect_result_eq res x
      cases hfh : specFirstHalt x with
      | none =>
          have hrec := collect_result_list_eq (res ++ specCollectedTables x) xs'
          simp [collect_result_list, hx, hfh, specCollectedTablesList, specFirstHaltList, hrec,
            List.append_assoc]
      | some e =>
          simp [collect_result_list, hx, hfh, specCollectedTablesList, specFirstHaltList]
termination_by (sizeOf xs, 1)
end

/-- In a node list whose prefix does not halt, the first halt is the
explicit `Halt` node. -/
theorem specFirstHaltList_append_halt (pre post : List CodeResult) (err : ErrorVm)
    (hpre : ∀ c ∈ pre, specFirstHalt c = none) :
    specFirstHaltList (pre ++ .Halt err :: post) = some (.VmUser err) := by
  induction pre with
  | nil => simp [specFirstHaltList, specFirstHalt]
  | cons c pre ih =>
      have hc := hpre c (by simp)
      simp only [List.cons_append, specFirstHaltList, hc]
      exact ih (fun d hd => hpre d (by simp [hd]))

/-- In a node list whose prefix does not halt, the tables collected up to
the first halt are exactly those of the prefix. -/
theorem specCollectedTablesList_append_halt (pre post : List CodeResult) (err : ErrorVm)
    (hpre : ∀ c ∈ pre, specFirstHalt c = none) :
    specCollectedTablesList (pre ++ .Halt err :: post) = specCollectedTablesList pre := by
  induction pre with
  | nil => simp [specCollectedTablesList, specCollectedTables, specFirstHalt]
  | cons c pre ih =>
      have hc := hpre c (by simp)
      simp only [List.cons_append, specCollectedTablesList, hc, List.append_eq]
      rw [ih (fun d hd => hpre d (by simp [hd]))]

/-- C5: a `Halt(err)` short-circuits `collect_result`: the error is
returned, results of nodes after the halt in a `Block` are not collected,
the collected output is exactly the `Table` results of the nodes preceding
the first halt (in order), and `Value` / `Pass` contribute nothing. -/
theorem collect_result_halt_shortcircuits :
    (∀ (res : List MemTable) (pre post : List CodeResult) (err : ErrorVm),
        (∀ c ∈ pre, specFirstHalt c = none) →
        collect_result res (.Block (pre ++ .Halt err :: post)) =
          (res ++ specCollectedTablesList pre, some (.VmUser err)))
  ∧ (∀ (res : List MemTable) (v : AlgebraicValue), collect_result res (.Value v) = (res, none))
  ∧ (∀ res : List MemTable, collect_result res .Pass = (res, none))
  ∧ (∀ (res : List MemTable) (x : MemTable), collect_result res (.Table x) = (res ++ [x], none))
  ∧ (∀ (res : List MemTable) (err : ErrorVm),
        collect_result res (.Halt err) = (res, some (.VmUser err))) := by
  refine ⟨?_, ?_, ?_, ?_, ?_⟩
  · intro res pre post err hpre
    rw [collect_result_eq]
    simp only [specCollectedTables, specFirstHalt]
    rw [specFirstHaltList_append_halt pre post err hpre,
      specCollectedTablesList_append_halt pre post err hpre]
  · intro res v; simp [collect_result]
  · intro res; simp [collect_result]
  · intro res x; simp [collect_result]
  · intro res err; simp [collect_result]

/-- Witness for C5 at a concrete block: one table node before a halt, one
after; only the first table is collected and the error surfaces. -/
theorem collect_result_halt_witness :
    (∀ c ∈ [CodeResult.Table ⟨⟨[]⟩, []⟩], specFirstHalt c = none)
  ∧ collect_result []
      (.Block [.Table ⟨⟨[]⟩, []⟩, .Halt (.err [1]), .Table ⟨⟨[]⟩, [⟨[]⟩]⟩]) =
      ([] ++ specCollectedTablesList [CodeResult.Table ⟨⟨[]⟩, []⟩],
        some (.VmUser (.err [1]))) := by
  have hpre : ∀ c ∈ [CodeResult.Table ⟨⟨[]⟩, []⟩], specFirstHalt c = none := by
    intro c hc
    simp at hc
    subst hc
    simp [specFirstHalt]
  exact ⟨hpre,
    collect_result_halt_shortcircuits.1 [] [CodeResult.Table ⟨⟨[]⟩, []⟩]
      [.Table ⟨⟨[]⟩, [⟨[]⟩]⟩] (.err [1]) hpre⟩

/-- C9: `ProductTypeElement` equality is structural over the full shape
including the optional field name; consequently the `ProductType` a
`TableSchema` converts to (named elements) differs from the
`TableDef::get_row_type` row type (unnamed elements) whenever the table has
a column, even though the column types coincide. -/
theorem product_type_structural_eq :
    (∀ e1 e2 : ProductTypeElement,
        e1 = e2 ↔ e1.name = e2.name ∧ e1.algebraic_type = e2.algebraic_type)
  ∧ (∀ ts : TableSchema, ts.columns ≠ [] →
        productTypeOfTableSchema ts ≠ (tableDefOfTableSchema ts).get_row_type
      ∧ (productTypeOfTableSchema ts).elements.map ProductTypeElement.algebraic_type =
          (tableDefOfTableSchema ts).get_row_type.elements.map
            ProductTypeElement.algebraic_type) := by
  constructor
  · intro e1 e2
    obtain ⟨n1, t1⟩ := e1
    obtain ⟨n2, t2⟩ := e2
    simp [ProductTypeElement.name, ProductTypeElement.algebraic_type]
  · intro ts hcols
    constructor
    · intro heq
      cases hcs : ts.columns with
      | nil => exact hcols hcs
      | cons c cs =>
          have : (productTypeOfTableSchema ts).elements =
              ((tableDefOfTableSchema ts).get_row_type).elements := by rw [heq]
          rw [productTypeOfTableSchema, TableDef.get_row_type, tableDefOfTableSchema] at this
          simp [hcs, columnDefOfColumnSchema] at this
    · rw [productTypeOfTableSchema, TableDef.get_row_type, tableDefOfTableSchema]
      simp [List.map_map, Function.comp_def, columnDefOfColumnSchema,
        ProductTypeElement.algebraic_type]

/-- Witness for C9 at the demo schema (two columns). -/
theorem product_type_structural_eq_witness :
    demoSchema.columns ≠ []
  ∧ productTypeOfTableSchema demoSchema ≠ (tableDefOfTableSchema demoSchema).get_row_type := by
  have h : demoSchema.columns ≠ [] := by simp [demoSchema]
  exact ⟨h, (product_type_structural_eq.2 demoSchema h).1⟩

/-- Every entry of `ProductTypeMeta.iter` carries the column and the
attribute stored at its own position. -/
theorem iter_mem_pairs (m : Lib.ProductTypeMeta) :
    ∀ d ∈ m.iter, m.columns[d.pos]? = some d.column ∧ m.attr[d.pos]? = some d.attr := by
  intro d hd
  rw [Lib.ProductTypeMeta.iter] at hd
  obtain ⟨p, hp, rfl⟩ := List.mem_map.1 hd
  have hzip : (m.columns.zip m.attr)[p.1]? = some p.2 := List.mem_enum_iff_getElem?.1 hp
  rw [List.getElem?_zip_eq_some] at hzip
  exact ⟨hzip.1, hzip.2⟩

/-- The entry of `ProductTypeMeta.iter` at a position is the column and
attribute at that position. -/
theorem iter_getElem (m : Lib.ProductTypeMeta) (i : Nat) (c : ProductTypeElement)
    (a : ColumnIndexAttribute) (hc : m.columns[i]? = some c) (ha : m.attr[i]? = some a) :
    m.iter[i]? = some ⟨c, a, i⟩ := by
  have hzip : (m.columns.zip m.attr)[i]? = some (c, a) :=
    List.getElem?_zip_eq_some.2 ⟨hc, ha⟩
  rw [Lib.ProductTypeMeta.iter, List.getElem?_map, List.getElem?_enum, hzip]
  rfl

/-- C10: every `ProductTypeMeta` constructor and mutator (`new`,
`with_capacity`, `with_attributes`, `from_iter`, `clear`, `push`, and
in-bounds `remove`) preserves the invariant that the `columns` and `attr`
vectors have equal length, so `iter` (and hence `with_defaults`) pairs each
column with exactly the attribute at the same position. -/
theorem product_type_meta_invariant :
    (∀ pt : ProductType,
        (Lib.ProductTypeMeta.new pt).columns.length = (Lib.ProductTypeMeta.new pt).attr.length)
  ∧ (∀ n : Nat, (Lib.ProductTypeMeta.with_capacity n).columns.length =
        (Lib.ProductTypeMeta.with_capacity n).attr.length)
  ∧ (∀ l : List (ProductTypeElement × ColumnIndexAttribute),
        (Lib.ProductTypeMeta.with_attributes l).columns.length =
          (Lib.ProductTypeMeta.with_attributes l).attr.length)
  ∧ (∀ l : List (List Nat × AlgebraicType × ColumnIndexAttribute),
        (Lib.ProductTypeMeta.from_iter l).columns.length =
          (Lib.ProductTypeMeta.from_iter l).attr.length)
  ∧ (∀ m : Lib.ProductTypeMeta,
        (Lib.ProductTypeMeta.clear m).columns.length = (Lib.ProductTypeMeta.clear m).attr.length)
  ∧ (∀ (m : Lib.ProductTypeMeta) (name : List Nat) (ty : AlgebraicType)
        (attr : ColumnIndexAttribute), m.columns.length = m.attr.length →
        (m.push name ty attr).columns.length = (m.push name ty attr).attr.length)
  ∧ (∀ (m : Lib.ProductTypeMeta) (i : Nat), m.columns.length = m.attr.length →
        i < m.columns.length →
        ∃ pr m', Lib.ProductTypeMeta.remove m i = some (pr, m')
          ∧ m'.columns.length = m'.attr.length)
  ∧ (∀ m : Lib.ProductTypeMeta, m.columns.length = m.attr.length →
        m.iter.length = m.columns.length
      ∧ (∀ (i : Nat) (c : ProductTypeElement) (a : ColumnIndexAttribute),
            m.columns[i]? = some c → m.attr[i]? = some a → m.iter[i]? = some ⟨c, a, i⟩)
      ∧ (∀ (row : ProductValue) (p : Lib.ColumnDef × AlgebraicValue),
            p ∈ m.with_defaults row →
            m.columns[p.1.pos]? = some p.1.column ∧ m.attr[p.1.pos]? = some p.1.attr)) := by
  refine ⟨?_, ?_, ?_, ?_, ?_, ?_, ?_, ?_⟩
  · intro pt
    simp [Lib.ProductTypeMeta.new]
  · intro n
    simp [Lib.ProductTypeMeta.with_capacity]
  · intro l
    simp [Lib.ProductTypeMeta.with_attributes]
  · intro l
    simp [Lib.ProductTypeMeta.from_iter, Lib.ProductTypeMeta.with_attributes]
  · intro m
    simp [Lib.ProductTypeMeta.clear]
  · intro m name ty attr h
    simp [Lib.ProductTypeMeta.push, h]
  · intro m i h hi
    have hi2 : i < m.attr.length := h ▸ hi
    have hc : m.columns[i]? = some m.columns[i] := List.getElem?_eq_getElem hi
    have ha : m.attr[i]? = some m.attr[i] := List.getElem?_eq_getElem hi2
    refine ⟨(m.columns[i], m.attr[i]), ⟨m.columns.eraseIdx i, m.attr.eraseIdx i⟩, ?_, ?_⟩
    · simp [Lib.ProductTypeMeta.remove, hc, ha]
    · simp [List.length_eraseIdx, hi, hi2, h]
  · intro m h
    refine ⟨?_, fun i c a hc ha => iter_getElem m i c a hc ha, ?_⟩
    · simp [Lib.ProductTypeMeta.iter, List.enum_length, List.length_zip, h]
    · intro row p hp
      rw [Lib.ProductTypeMeta.with_defaults] at hp
      have hmem : p ∈ m.iter.zip row.elements := List.mem_of_mem_filter hp
      exact iter_mem_pairs m p.1 (List.of_mem_zip hmem).1

/-- Witness for C10 at a concrete two-column meta record. -/
theorem product_type_meta_invariant_witness :
    (Lib.ProductTypeMeta.mk [.mk (some [97]) .bool, .mk (some [98]) .str]
        [.AutoInc, .UnSet]).columns.length =
      (Lib.ProductTypeMeta.mk [.mk (some [97]) .bool, .mk (some [98]) .str]
        [.AutoInc, .UnSet]).attr.length
  ∧ (0 : Nat) <
      (Lib.ProductTypeMeta.mk [.mk (some [97]) .bool, .mk (some [98]) .str]
        [.AutoInc, .UnSet]).columns.length
  ∧ (∃ pr m',
      Lib.ProductTypeMeta.remove
        (Lib.ProductTypeMeta.mk [.mk (some [97]) .bool, .mk (some [98]) .str]
          [.AutoInc, .UnSet]) 0 = some (pr, m')
      ∧ m'.columns.length = m'.attr.length)
  ∧ (Lib.ProductTypeMeta.mk [.mk (some [97]) .bool, .mk (some [98]) .str]
      [.AutoInc, .UnSet]).iter.length = 2 := by
  have h : (Lib.ProductTypeMeta.mk [.mk (some [97]) .bool, .mk (some [98]) .str]
      [.AutoInc, .UnSet]).columns.length =
      (Lib.ProductTypeMeta.mk [.mk (some [97]) .bool, .mk (some [98]) .str]
        [.AutoInc, .UnSet]).attr.length := by
    simp
  have hi : (0 : Nat) < (Lib.ProductTypeMeta.mk [.mk (some [97]) .bool, .mk (some [98]) .str]
      [.AutoInc, .UnSet]).columns.length := by
    simp
  refine ⟨h, hi, product_type_meta_invariant.2.2.2.2.2.2.1 _ 0 h hi, ?_⟩
  have := (product_type_meta_invariant.2.2.2.2.2.2.2 _ h).1
  rw [this]
  simp

/-- C7: `delete_by_field` returns `false` whenever the underlying
`delete_eq` host call errors (the error is swallowed, so an error and a
zero-row delete are indistinguishable), and on success with count `n`
returns `n > 0`. -/
theorem delete_by_field_swallows :
    (∀ (σ : Type) (hostDeleteEq : σ → Nat → Nat → List Nat → σ × Except Bindings.Errno Nat)
        (s s' : σ) (table_id col_id : Nat) (val : AlgebraicValue) (e : Bindings.Errno),
        hostDeleteEq s table_id col_id (encodeVal val) = (s', .error e) →
        Bindings.delete_by_field hostDeleteEq s table_id col_id val = (s', false))
  ∧ (∀ (σ : Type) (hostDeleteEq : σ → Nat → Nat → List Nat → σ × Except Bindings.Errno Nat)
        (s s' : σ) (table_id col_id : Nat) (val : AlgebraicValue) (n : Nat),
        hostDeleteEq s table_id col_id (encodeVal val) = (s', .ok n) →
        Bindings.delete_by_field hostDeleteEq s table_id col_id val = (s', decide (0 < n)))
  ∧ (∀ (σ : Type) (h1 h2 : σ → Nat → Nat → List Nat → σ × Except Bindings.Errno Nat)
        (s s1 s2 : σ) (table_id col_id : Nat) (val : AlgebraicValue) (e : Bindings.Errno),
        h1 s table_id col_id (encodeVal val) = (s1, .error e) →
        h2 s table_id col_id (encodeVal val) = (s2, .ok 0) →
        (Bindings.delete_by_field h1 s table_id col_id val).2 =
          (Bindings.delete_by_field h2 s table_id col_id val).2) := by
  refine ⟨?_, ?_, ?_⟩
  · intro σ host s s' tid col val e h
    simp [Bindings.delete_by_field, Bindings.delete_eq, h]
  · intro σ host s s' tid col val n h
    simp [Bindings.delete_by_field, Bindings.delete_eq, h]
  · intro σ h1 h2 s s1 s2 tid col val e he hok
    simp [Bindings.delete_by_field, Bindings.delete_eq, he, hok]

/-- Witness for C7: a host that errors, and a host that deletes two rows. -/
theorem delete_by_field_swallows_witness :
    (demoHostErr () 5 0 (encodeVal (.vuint .w8 1)) = ((), .error Bindings.Errno.ABORTED)
      ∧ Bindings.delete_by_field demoHostErr () 5 0 (.vuint .w8 1) = ((), false))
  ∧ (demoHostOk2 () 5 0 (encodeVal (.vuint .w8 1)) = ((), Except.ok 2)
      ∧ Bindings.delete_by_field demoHostOk2 () 5 0 (.vuint .w8 1) = ((), decide (0 < 2))) := by
  refine ⟨⟨rfl, ?_⟩, ⟨rfl, ?_⟩⟩
  · exact delete_by_field_swallows.1 Unit demoHostErr () () 5 0 (.vuint .w8 1) .ABORTED rfl
  · exact delete_by_field_swallows.2.1 Unit demoHostOk2 () () 5 0 (.vuint .w8 1) 2 rfl

/-- C8: `update_by_field` is exactly `delete_by_field` followed by `insert`
of the modified row, and it returns `true` for every input — in particular
also when the delete found no row to remove or failed. -/
theorem update_by_field_delete_insert :
    ∀ (σ : Type) (hostDeleteEq : σ → Nat → Nat → List Nat → σ × Except Bindings.Errno Nat)
      (hostInsert : σ → Nat → List Nat → σ × Except Bindings.Errno (List Nat))
      (attrs : List ColumnIndexAttribute) (schema : ProductType) (s : σ)
      (table_id col_id : Nat) (val : AlgebraicValue) (new_value : ProductValue),
      Bindings.update_by_field hostDeleteEq hostInsert attrs schema s table_id col_id val
          new_value =
        ((Bindings.insert hostInsert attrs schema
            (Bindings.delete_by_field hostDeleteEq s table_id col_id val).1
            table_id new_value).1, true) := by
  intro σ hostDeleteEq hostInsert attrs schema s table_id col_id val new_value
  rfl

/-- C3: the guest-side `insert` encodes the row into the scratch buffer and
calls the host; on success, when the table has an autoinc column
(`HAS_AUTOINC`, which equals `any is_autoinc` over `COLUMN_ATTRS`) the
returned row is decoded from the buffer as overwritten by the host, and
otherwise the original row is returned unchanged. -/
theorem insert_buffer_contract :
    (∀ attrs : List ColumnIndexAttribute,
        Bindings.HAS_AUTOINC attrs = attrs.any ColumnIndexAttribute.is_autoinc)
  ∧ (∀ (σ : Type) (hostInsert : σ → Nat → List Nat → σ × Except Bindings.Errno (List Nat))
        (attrs : List ColumnIndexAttribute) (schema : ProductType) (s s' : σ)
        (table_id : Nat) (row : ProductValue) (newBytes : List Nat),
        hostInsert s table_id (encode_row row) = (s', Except.ok newBytes) →
        Bindings.HAS_AUTOINC attrs = true →
        Bindings.insert hostInsert attrs schema s table_id row =
          (s', .ok ((decode_row schema newBytes).map Prod.fst)))
  ∧ (∀ (σ : Type) (hostInsert : σ → Nat → List Nat → σ × Except Bindings.Errno (List Nat))
        (attrs : List ColumnIndexAttribute) (schema : ProductType) (s s' : σ)
        (table_id : Nat) (row : ProductValue) (newBytes : List Nat),
        hostInsert s table_id (encode_row row) = (s', Except.ok newBytes) →
        Bindings.HAS_AUTOINC attrs = false →
        Bindings.insert hostInsert attrs schema s table_id row = (s', .ok (some row)))
  ∧ (∀ (σ : Type) (hostInsert : σ → Nat → List Nat → σ × Except Bindings.Errno (List Nat))
        (attrs : List ColumnIndexAttribute) (schema : ProductType) (s s' : σ)
        (table_id : Nat) (row : ProductValue) (e : Bindings.Errno),
        hostInsert s table_id (encode_row row) = (s', Except.error e) →
        Bindings.insert hostInsert attrs schema s table_id row = (s', .error e)) := by
  refine ⟨?_, ?_, ?_, ?_⟩
  · intro attrs
    induction attrs with
    | nil => simp [Bindings.HAS_AUTOINC, Bindings.hasAutoincGo]
    | cons a rest ih =>
        rw [Bindings.HAS_AUTOINC] at ih ⊢
        cases ha : a.is_autoinc <;> simp [Bindings.hasAutoincGo, ha, ih]
  · intro σ host attrs schema s s' tid row newBytes hok hauto
    simp [Bindings.insert, hok, hauto, Except.map]
  · intro σ host attrs schema s s' tid row newBytes hok hauto
    simp [Bindings.insert, hok, hauto, Except.map]
  · intro σ host attrs schema s s' tid row e herr
    simp [Bindings.insert, herr, Except.map]

/-- Witness for C3: a host overwriting the buffer with an assigned row for
an autoinc table, and a host for a table without autoinc columns. -/
theorem insert_buffer_contract_witness :
    (demoHostBuf () 16 (encode_row ⟨[.vuint .w8 0]⟩) = ((), Except.ok [7])
      ∧ Bindings.HAS_AUTOINC [.AutoInc] = true
      ∧ Bindings.insert demoHostBuf [.AutoInc] ⟨[.mk none (.uint .w8)]⟩ () 16
          ⟨[.vuint .w8 0]⟩ =
          ((), .ok ((decode_row ⟨[.mk none (.uint .w8)]⟩ [7]).map Prod.fst)))
  ∧ (demoHostBuf () 16 (encode_row ⟨[.vuint .w8 3]⟩) = ((), Except.ok [7])
      ∧ Bindings.HAS_AUTOINC [ColumnIndexAttribute.UnSet] = false
      ∧ Bindings.insert demoHostBuf [ColumnIndexAttribute.UnSet] ⟨[.mk none (.uint .w8)]⟩
          () 16 ⟨[.vuint .w8 3]⟩ =
          ((), .ok (some ⟨[.vuint .w8 3]⟩))) := by
  have ha : Bindings.HAS_AUTOINC [ColumnIndexAttribute.AutoInc] = true := rfl
  have hn : Bindings.HAS_AUTOINC [ColumnIndexAttribute.UnSet] = false := rfl
  exact ⟨⟨rfl, ha, insert_buffer_contract.2.1 Unit demoHostBuf [.AutoInc]
      ⟨[.mk none (.uint .w8)]⟩ () () 16 ⟨[.vuint .w8 0]⟩ [7] rfl ha⟩,
    ⟨rfl, hn, insert_buffer_contract.2.2.1 Unit demoHostBuf [ColumnIndexAttribute.UnSet]
      ⟨[.mk none (.uint .w8)]⟩ () () 16 ⟨[.vuint .w8 3]⟩ [7] rfl hn⟩⟩

/-- Auxiliary for `findTable_updateTable`, by recursion on the table list. -/
theorem findTable_updateTable_aux (tid : Nat) (tbl tbl' : DB.Table)
    (htid : (tbl'.schema.table_id == tid) = true) :
    ∀ tables : List DB.Table,
      tables.find? (fun t => t.schema.table_id == tid) = some tbl →
      (tables.map (fun t => if t.schema.table_id == tid then tbl' else t)).find?
        (fun t => t.schema.table_id == tid) = some tbl' := by
  intro tables
  induction tables with
  | nil => intro h; simp at h
  | cons t ts ih =>
      intro h
      rw [List.find?_cons] at h
      rw [List.map_cons, List.find?_cons]
      cases ht : (t.schema.table_id == tid) with
      | true =>
          simp only [ht, if_true, htid]
      | false =>
          simp only [ht] at h
          simp only [ht, Bool.false_eq_true, if_false]
          exact ih h

/-- Replacing the found table by one with the same id makes the replacement
the found table. -/
theorem findTable_updateTable (db : DB.Datastore) (tid : Nat) (tbl tbl' : DB.Table)
    (h : DB.findTable db tid = some tbl) (htid : tbl'.schema.table_id = tid) :
    DB.findTable (DB.updateTable db tid tbl') tid = some tbl' := by
  rw [DB.findTable, DB.updateTable]
  rw [DB.findTable] at h
  exact findTable_updateTable_aux tid tbl tbl' (by simp [htid]) db.tables h

/-- A row surviving the equality-delete filter does not project to the
deleted value. -/
theorem rowMatches_false_proj (r : ProductValue) (col_id : Nat) (v : AlgebraicValue)
    (h : DB.rowMatches r col_id v = false) : DB.projCol r col_id ≠ some v := by
  intro hc
  have hb : beqVal v v = true := (beqVal_iff v v).2 rfl
  simp [DB.rowMatches, hc, hb] at h

/-- A row projecting away from the deleted value survives the filter. -/
theorem proj_ne_rowMatches_false (r : ProductValue) (col_id : Nat) (v : AlgebraicValue)
    (h : DB.projCol r col_id ≠ some v) : DB.rowMatches r col_id v = false := by
  rw [DB.rowMatches]
  cases hp : DB.projCol r col_id with
  | none => rfl
  | some x =>
      have hxv : ¬ x = v := fun he => h (by rw [hp, he])
      rw [Bool.eq_false_iff]
      intro hbt
      exact hxv ((beqVal_iff x v).1 hbt)

/-- C6 (amended from the datastore side): given the table exists,
`delete_eq` succeeds, returning the exact number of rows whose projection
on the column equals the value; afterwards no such row remains, every other
row remains, and the count is the difference in row counts (the count of
rows subsequently absent). -/
theorem delete_eq_count (db : DB.Datastore) (table_id col_id : Nat) (v : AlgebraicValue)
    (tbl : DB.Table) (h : DB.findTable db table_id = some tbl)
    (htid : tbl.schema.table_id = table_id) :
    ∃ cnt db', DB.delete_eq db table_id col_id v = .ok (cnt, db')
      ∧ cnt = tbl.rows.countP (fun r => DB.rowMatches r col_id v)
      ∧ ∃ tbl', DB.findTable db' table_id = some tbl'
        ∧ cnt + tbl'.rows.length = tbl.rows.length
        ∧ (∀ r ∈ tbl'.rows, DB.projCol r col_id ≠ some v)
        ∧ (∀ r ∈ tbl.rows, DB.projCol r col_id ≠ some v → r ∈ tbl'.rows) := by
  refine ⟨tbl.rows.countP (fun r => DB.rowMatches r col_id v),
    DB.updateTable db table_id
      { tbl with rows := tbl.rows.filter (fun r => ! DB.rowMatches r col_id v) },
    ?_, rfl,
    { tbl with rows := tbl.rows.filter (fun r => ! DB.rowMatches r col_id v) },
    ?_, ?_, ?_, ?_⟩
  · rw [DB.delete_eq, h]
  · exact findTable_updateTable db table_id tbl _ h htid
  · have h1 : (tbl.rows.filter (fun r => ! DB.rowMatches r col_id v)).length
        = tbl.rows.countP (fun r => ! DB.rowMatches r col_id v) :=
      (List.countP_eq_length_filter _ _).symm
    have h2 := List.length_eq_countP_add_countP (fun r => DB.rowMatches r col_id v) tbl.rows
    simp only [decide_not, Bool.decide_coe] at h2
    simp only [h1]
    omega
  · intro r hr
    have := List.of_mem_filter hr
    exact rowMatches_false_proj r col_id v (by simpa using this)
  · intro r hr hne
    exact List.mem_filter.2 ⟨hr, by simp [proj_ne_rowMatches_false r col_id v hne]⟩

/-- Witness for C6: deleting id 1 from the populated demo table removes
exactly one row. -/
theorem delete_eq_count_witness :
    DB.findTable demoDB2 16 = some demoTable2
  ∧ demoTable2.schema.table_id = 16
  ∧ ∃ cnt db', DB.delete_eq demoDB2 16 0 (.vuint .w64 1) = .ok (cnt, db')
      ∧ cnt = demoTable2.rows.countP (fun r => DB.rowMatches r 0 (.vuint .w64 1))
      ∧ ∃ tbl', DB.findTable db' 16 = some tbl'
        ∧ cnt + tbl'.rows.length = demoTable2.rows.length
        ∧ (∀ r ∈ tbl'.rows, DB.projCol r 0 ≠ some (.vuint .w64 1))
        ∧ (∀ r ∈ demoTable2.rows, DB.projCol r 0 ≠ some (.vuint .w64 1) → r ∈ tbl'.rows) := by
  have h : DB.findTable demoDB2 16 = some demoTable2 := by
    simp [DB.findTable, demoDB2, demoTable2, demoSchema]
  have htid : demoTable2.schema.table_id = 16 := rfl
  exact ⟨h, htid, delete_eq_count demoDB2 16 0 (.vuint .w64 1) demoTable2 h htid⟩

/-- When the unique check passes, no unique index sees an existing row with
the same projected key as the inserted row. -/
theorem uniqueConflict_false_no_dup (tbl : DB.Table) (row : ProductValue)
    (h : DB.uniqueConflict tbl row = false) :
    ∀ ix ∈ tbl.schema.indexes, ix.is_unique = true →
      ∀ r ∈ tbl.rows, ∀ a b, DB.projCol r ix.col_id = some a →
        DB.projCol row ix.col_id = some b → a ≠ b := by
  intro ix hix hu r hr a b hpa hpb heq
  subst heq
  rw [DB.uniqueConflict, List.any_eq_false] at h
  apply h ix hix
  rw [hu, Bool.true_and, List.any_eq_true]
  refine ⟨r, hr, ?_⟩
  simp only [hpa, hpb]
  exact (beqVal_iff a a).2 rfl

/-- C2 (amended): under a mutable transaction, insert validates the row
against the table's product type (failing with `TypeMismatch`), assigns
sequence values for `is_autoinc` columns, checks every unique index and
fails with `UniqueConstraintViolation` on conflict; on success it returns
the post-insert row (a `ProductValue` with the assigned sequence values,
per the `insert_row_mut_tx` trait signature — the opaque-`RowId` return
belongs to `MutDatastore::insert_row`), and the row is appended to the
table. -/
theorem insert_row_mut_tx_spec (db : DB.Datastore) (table_id : Nat) (row : ProductValue)
    (tbl : DB.Table) (h : DB.findTable db table_id = some tbl)
    (htid : tbl.schema.table_id = table_id) :
    (typeCheckFields (productTypeOfTableSchema tbl.schema).elements row.elements = false →
        DB.insert_row_mut_tx db table_id row = .error .TypeMismatch)
  ∧ (∀ vals : List AlgebraicValue,
        typeCheckFields (productTypeOfTableSchema tbl.schema).elements row.elements = true →
        DB.assignVals tbl.schema.columns tbl.seqs 0 row.elements = .ok vals →
        DB.uniqueConflict tbl ⟨vals⟩ = true →
        DB.insert_row_mut_tx db table_id row = .error .UniqueConstraintViolation)
  ∧ (∀ (row' : ProductValue) (db' : DB.Datastore),
        DB.insert_row_mut_tx db table_id row = .ok (row', db') →
          DB.assignVals tbl.schema.columns tbl.seqs 0 row.elements = .ok row'.elements
        ∧ DB.findTable db' table_id =
            some { tbl with
                    rows := tbl.rows ++ [row']
                    seqs := DB.bumpSeqs tbl.schema.columns tbl.seqs }
        ∧ (∀ ix ∈ tbl.schema.indexes, ix.is_unique = true →
            ∀ r ∈ tbl.rows, ∀ a b, DB.projCol r ix.col_id = some a →
              DB.projCol row' ix.col_id = some b → a ≠ b)) := by
  refine ⟨?_, ?_, ?_⟩
  · intro hf
    simp [DB.insert_row_mut_tx, h, hf]
  · intro vals ht ha hc
    simp [DB.insert_row_mut_tx, h, ht, ha, hc]
  · intro row' db' hok
    simp only [DB.insert_row_mut_tx, h] at hok
    by_cases ht : typeCheckFields (productTypeOfTableSchema tbl.schema).elements row.elements = true
    · rw [if_pos ht] at hok
      cases ha : DB.assignVals tbl.schema.columns tbl.seqs 0 row.elements with
      | error e => simp [ha] at hok
      | ok vals =>
          simp only [ha] at hok
          by_cases hc : DB.uniqueConflict tbl ⟨vals⟩ = true
          · simp [hc] at hok
          · rw [if_neg hc] at hok
            rw [Except.ok.injEq, Prod.mk.injEq] at hok
            obtain ⟨hrow, hdb⟩ := hok
            subst hrow
            subst hdb
            refine ⟨rfl, ?_, ?_⟩
            · exact findTable_updateTable db table_id tbl _ h htid
            · exact uniqueConflict_false_no_dup tbl ⟨vals⟩ (Bool.eq_false_iff.2 hc)
    · rw [if_neg ht] at hok
      simp at hok

/-- Witness for C2's amended theorem at the demo datastore. -/
theorem insert_row_mut_tx_spec_witness :
    DB.findTable demoDB 16 = some ⟨demoSchema, fun _ => 1, []⟩
  ∧ (⟨demoSchema, fun _ => 1, []⟩ : DB.Table).schema.table_id = 16
  ∧ (∀ vals : List AlgebraicValue,
        typeCheckFields (productTypeOfTableSchema demoSchema).elements demoRowA.elements = true →
        DB.assignVals demoSchema.columns (fun _ => 1) 0 demoRowA.elements = .ok vals →
        DB.uniqueConflict ⟨demoSchema, fun _ => 1, []⟩ ⟨vals⟩ = true →
        DB.insert_row_mut_tx demoDB 16 demoRowA = .error .UniqueConstraintViolation) := by
  have h : DB.findTable demoDB 16 = some ⟨demoSchema, fun _ => 1, []⟩ := by
    simp [DB.findTable, demoDB, demoSchema]
  have htid : (⟨demoSchema, fun _ => 1, []⟩ : DB.Table).schema.table_id = 16 := rfl
  exact ⟨h, htid, (insert_row_mut_tx_spec demoDB 16 demoRowA _ h htid).2.1⟩

/-- C2 counterexample: `insert_row_mut_tx` does not return an opaque
`RowId`.  Its success value is the post-insert row itself: for two inserts
into the same state differing only in a non-autoinc string field, the
`MutDatastore::insert_row` variant returns the same opaque id `0` both
times, while `insert_row_mut_tx` returns two different `ProductValue`s that
carry the inserted string data. -/
theorem insert_row_mut_tx_not_row_id :
    (DB.insert_row demoDB 16 demoRowA).map Prod.fst = .ok 0
  ∧ (DB.insert_row demoDB 16 demoRowB).map Prod.fst = .ok 0
  ∧ (DB.insert_row_mut_tx demoDB 16 demoRowA).map Prod.fst =
      .ok ⟨[.vuint .w64 1, .vstr [120]]⟩
  ∧ (DB.insert_row_mut_tx demoDB 16 demoRowB).map Prod.fst =
      .ok ⟨[.vuint .w64 1, .vstr [121]]⟩
  ∧ ProductValue.mk [.vuint .w64 1, .vstr [120]] ≠
      ProductValue.mk [.vuint .w64 1, .vstr [121]] := by
  have hA : DB.insert_row_mut_tx demoDB 16 demoRowA =
      .ok (⟨[.vuint .w64 1, .vstr [120]]⟩,
        DB.updateTable demoDB 16
          { schema := demoSchema
            seqs := DB.bumpSeqs demoSchema.columns (fun _ => 1)
            rows := [⟨[.vuint .w64 1, .vstr [120]]⟩] }) := by
    simp [DB.insert_row_mut_tx, DB.findTable, demoDB, demoRowA, demoSchema,
      productTypeOfTableSchema, typeCheck, typeCheckFields, IntWidth.byteCount,
      DB.assignVals, DB.seqValue, DB.uniqueConflict]
  have hB : DB.insert_row_mut_tx demoDB 16 demoRowB =
      .ok (⟨[.vuint .w64 1, .vstr [121]]⟩,
        DB.updateTable demoDB 16
          { schema := demoSchema
            seqs := DB.bumpSeqs demoSchema.columns (fun _ => 1)
            rows := [⟨[.vuint .w64 1, .vstr [121]]⟩] }) := by
    simp [DB.insert_row_mut_tx, DB.findTable, demoDB, demoRowB, demoSchema,
      productTypeOfTableSchema, typeCheck, typeCheckFields, IntWidth.byteCount,
      DB.assignVals, DB.seqValue, DB.uniqueConflict]
  have hFind : DB.findTable demoDB 16 = some ⟨demoSchema, fun _ => 1, []⟩ := by
    simp [DB.findTable, demoDB, demoSchema]
  refine ⟨?_, ?_, ?_, ?_, ?_⟩
  · rw [DB.insert_row, hFind, hA]
    rfl
  · rw [DB.insert_row, hFind, hB]
    rfl
  · rw [hA]; rfl
  · rw [hB]; rfl
  · simp

/-- An exhausted reader and an absent reader behave identically: both pull
the next buffer. -/
theorem rawNext_none_empty (schema : ProductType) (bufs : List (List Nat)) :
    Bindings.rawNext schema ⟨bufs, none⟩ = Bindings.rawNext schema ⟨bufs, some []⟩ := by
  rw [Bindings.rawNext, Bindings.rawNext]
  simp

/-- Running from an absent reader equals running from an exhausted one. -/
theorem runRawIter_none_empty (schema : ProductType) (fuel : Nat) (bufs : List (List Nat)) :
    Bindings.runRawIter schema fuel ⟨bufs, none⟩ =
      Bindings.runRawIter schema fuel ⟨bufs, some []⟩ := by
  cases fuel with
  | zero => rfl
  | succ f =>
      rw [Bindings.runRawIter, Bindings.runRawIter, rawNext_none_empty]

/-- Consuming one buffer holding the concatenated encodings of `rs`: the
iterator yields the rows of `rs` one at a time, then continues from the
exhausted reader. -/
theorem runRawIter_buffer (schema : ProductType) :
    ∀ (rs : List ProductValue) (fuel : Nat) (inner : List (List Nat)),
      (∀ r ∈ rs, typeCheckFields schema.elements r.elements = true ∧ encode_row r ≠ []) →
      Bindings.runRawIter schema (rs.length + fuel)
          ⟨inner, some ((rs.map encode_row).flatten)⟩ =
        (Bindings.runRawIter schema fuel ⟨inner, some []⟩).map (fun l => rs ++ l) := by
  intro rs
  induction rs with
  | nil =>
      intro fuel inner _
      simp
  | cons r rs ih =>
      intro fuel inner hr
      have h1 := (hr r (by simp)).1
      have h2 := (hr r (by simp)).2
      have hlen : (r :: rs).length + fuel = (rs.length + fuel) + 1 := by
        simp [Nat.succ_add]
      rw [hlen, Bindings.runRawIter]
      have hne : (((r :: rs).map encode_row).flatten).isEmpty = false := by
        cases he : encode_row r with
        | nil => exact absurd he h2
        | cons b bs => simp [he]
      have hsplit : ((r :: rs).map encode_row).flatten =
          encode_row r ++ (rs.map encode_row).flatten := by
        simp
      have hstep : Bindings.rawNext schema
          ⟨inner, some (((r :: rs).map encode_row).flatten)⟩ =
          .yield r ⟨inner, some ((rs.map encode_row).flatten)⟩ := by
        rw [Bindings.rawNext]
        simp only [hne, Bool.false_eq_true, if_false]
        rw [Bindings.decodeStep, hsplit, decode_row_encode_row schema r _ h1]
      rw [hstep]
      show (Bindings.runRawIter schema (rs.length + fuel)
          ⟨inner, some ((rs.map encode_row).flatten)⟩).map (fun l => r :: l) = _
      rw [ih fuel inner (fun x hx => hr x (by simp [hx])), Option.map_map]
      rfl

/-- Consuming a list of row buffers from an exhausted reader yields the
concatenation of all rows. -/
theorem runRawIter_buffers (schema : ProductType) :
    ∀ (rss : List (List ProductValue)) (k : Nat),
      (∀ rs ∈ rss, rs ≠ []) →
      (∀ r ∈ rss.flatten, typeCheckFields schema.elements r.elements = true
        ∧ encode_row r ≠ []) →
      Bindings.runRawIter schema (rss.flatten.length + (k + 1))
        ⟨rss.map (fun rs => (rs.map encode_row).flatten), some []⟩ = some rss.flatten := by
  intro rss
  induction rss with
  | nil =>
      intro k _ _
      simp [Bindings.runRawIter, Bindings.rawNext]
  | cons rs rss ih =>
      intro k hne hr
      cases rs with
      | nil => exact absurd rfl (hne [] (by simp))
      | cons r rs' =>
          have h1 : typeCheckFields schema.elements r.elements = true ∧ encode_row r ≠ [] := by
            refine hr r ?_
            simp
          have hlen : ((r :: rs') :: rss).flatten.length + (k + 1) =
              (rs'.length + (rss.flatten.length + (k + 1))) + 1 := by
            simp
            omega
          rw [hlen, Bindings.runRawIter]
          have hstep : Bindings.rawNext schema
              ⟨((r :: rs') :: rss).map (fun rs => (rs.map encode_row).flatten), some []⟩ =
              .yield r ⟨rss.map (fun rs => (rs.map encode_row).flatten),
                some ((rs'.map encode_row).flatten)⟩ := by
            rw [Bindings.rawNext]
            simp only [List.map_cons, List.isEmpty_nil, if_true]
            rw [Bindings.decodeStep, List.flatten_cons, decode_row_encode_row schema r _ h1.1]
          rw [hstep]
          show (Bindings.runRawIter schema (rs'.length + (rss.flatten.length + (k + 1)))
              ⟨rss.map (fun rs => (rs.map encode_row).flatten),
                some ((rs'.map encode_row).flatten)⟩).map (fun l => r :: l) = _
          rw [runRawIter_buffer schema rs' (rss.flatten.length + (k + 1))
            (rss.map (fun rs => (rs.map encode_row).flatten))
            (fun x hx => hr x (by simp [hx]))]
          rw [ih k (fun x hx => hne x (by simp [hx])) (fun x hx => hr x (by simp [hx]))]
          simp

/-- C4: a guest table iteration decodes the first ABI buffer as the table's
product-type schema; each subsequent buffer is consumed as a concatenation
of BSATN-encoded rows, one decoded row yielded at a time until the buffer's
remaining byte count reaches zero, then the next buffer is pulled; the
iteration ends when the buffer iterator is exhausted, having yielded every
row of every buffer in order. -/
theorem table_iter_contract :
    (∀ (schema : ProductType) (fuel : Nat) (bufs : List (List Nat)),
        wfProductType schema = true → schemaDepth schema ≤ fuel →
        Bindings.buffer_table_iter fuel (encode_schema schema :: bufs) = some (schema, bufs))
  ∧ (∀ (schema : ProductType) (rss : List (List ProductValue)) (k : Nat),
        (∀ rs ∈ rss, rs ≠ []) →
        (∀ r ∈ rss.flatten, typeCheckFields schema.elements r.elements = true
          ∧ encode_row r ≠ []) →
        Bindings.runRawIter schema (rss.flatten.length + (k + 1))
          ⟨rss.map (fun rs => (rs.map encode_row).flatten), none⟩ = some rss.flatten) := by
  constructor
  · intro schema fuel bufs hwf hd
    rw [Bindings.buffer_table_iter]
    have hdec := decode_schema_encode_schema schema fuel [] hwf hd
    rw [List.append_nil] at hdec
    rw [hdec]
    rfl
  · intro schema rss k hne hr
    rw [runRawIter_none_empty]
    exact runRawIter_buffers schema rss k hne hr

/-- Witness for C4: one schema buffer followed by one buffer holding a
single boolean row. -/
theorem table_iter_contract_witness :
    (wfProductType ⟨[.mk none .bool]⟩ = true
      ∧ schemaDepth ⟨[.mk none .bool]⟩ ≤ 1
      ∧ Bindings.buffer_table_iter 1
          (encode_schema ⟨[.mk none .bool]⟩ :: [encode_row ⟨[.vbool true]⟩]) =
          some (⟨[.mk none .bool]⟩, [encode_row ⟨[.vbool true]⟩]))
  ∧ ((∀ rs ∈ [[ProductValue.mk [.vbool true]]], rs ≠ [])
      ∧ (∀ r ∈ [[ProductValue.mk [.vbool true]]].flatten,
          typeCheckFields (ProductType.mk [.mk none .bool]).elements r.elements = true
          ∧ encode_row r ≠ [])
      ∧ Bindings.runRawIter ⟨[.mk none .bool]⟩
          ([[ProductValue.mk [.vbool true]]].flatten.length + (0 + 1))
          ⟨[[ProductValue.mk [.vbool true]]].map (fun rs => (rs.map encode_row).flatten),
            none⟩ =
          some [[ProductValue.mk [.vbool true]]].flatten) := by
  have hwf : wfProductType ⟨[.mk none .bool]⟩ = true := by
    simp [wfProductType, wfElems, wfName, wfTy]
  have hd : schemaDepth ⟨[.mk none .bool]⟩ ≤ 1 := by
    simp [schemaDepth, elemsDepth, tyDepth]
  have hne : ∀ rs ∈ [[ProductValue.mk [.vbool true]]], rs ≠ [] := by
    simp
  have hrows : ∀ r ∈ [[ProductValue.mk [.vbool true]]].flatten,
      typeCheckFields (ProductType.mk [.mk none .bool]).elements r.elements = true
      ∧ encode_row r ≠ [] := by
    intro r hrr
    have hr1 : r = ProductValue.mk [.vbool true] := by simpa using hrr
    subst hr1
    constructor
    · simp [typeCheckFields, typeCheck]
    · simp [encode_row, encodeList, encodeVal]
  exact ⟨⟨hwf, hd, table_iter_contract.1 ⟨[.mk none .bool]⟩ 1 [encode_row ⟨[.vbool true]⟩]
      hwf hd⟩,
    ⟨hne, hrows, table_iter_contract.2 ⟨[.mk none .bool]⟩ [[ProductValue.mk [.vbool true]]] 0
      hne hrows⟩⟩

end SpacetimeDB
